import Mathlib

/-!
Verification development for the r2wraith game-server supervisor.

The Rust sources are embedded shallowly:

* `config.rs` — the `PlaylistOverrides` bag of optional gameplay-tuning
  fields and its left-biased `or` combinator.  `f64`-valued fields are
  modelled as `ℚ` (the combinator only moves values around, it never
  computes with them); `HashSet<Riff>` is modelled as `Finset Riff`;
  `LinkedHashMap` is modelled as an association list in insertion order.
* `arg_builder.rs` — the `ArgBuilder` buckets and `build`.
* `server_cluster.rs` — `Server`, `ServerState`, `ServerCluster` and the
  operations `start`, `stop`, `load_servers`, `stop_old`, `stop_all`,
  `serialize`, `deserialize`, `poll`.  The container engine, the cron
  evaluator and the TCP probe are external collaborators; each operation
  takes an oracle recording the engine's answers for that invocation.
-/

namespace R2Wraith

/-- Riff: named gameplay feature flags (config.rs, `enum Riff`). -/
inductive Riff
  | floorIsLava
  | allHolopilot
  | allGrapple
  | allPhase
  | allTicks
  | tactikill
  | ampedTacticals
  | rocketArena
  | shotgunsSnipers
  | ironRules
  | firstPersonEmbark
  | instagib
deriving DecidableEq

/-- config.rs, `enum PilotBleedout`. -/
inductive PilotBleedout
  | default
  | disabled
  | enabled
deriving DecidableEq

/-- config.rs, `enum BoostMeterOverdrive`. -/
inductive BoostMeterOverdrive
  | enabled
  | disabled
  | only
deriving DecidableEq

/-- config.rs, `enum GraphicsMode`. -/
inductive GraphicsMode
  | default
  | software
deriving DecidableEq

/-- config.rs, `enum PrivateLobbyPlayerPermissions`. -/
inductive PrivateLobbyPlayerPermissions
  | all
  | mapModeOnly
  | none
deriving DecidableEq

/-- config.rs, `struct PlaylistOverrides`.  Every scalar field is optional;
`f64` fields are modelled as `ℚ`, `u32` as `ℕ`. -/
structure PlaylistOverrides where
  riffs : Finset Riff
  match_classic_mp_enabled : Option Bool
  match_epilogue_enabled : Option Bool
  match_scorelimit : Option ℚ
  match_round_scorelimit : Option ℚ
  match_timelimit : Option ℚ
  match_round_timelimit : Option ℚ
  match_oob_timer_enabled : Option Bool
  match_max_players : Option ℕ
  titan_boost_meter_multiplier : Option ℚ
  titan_aegis_upgrades_enabled : Option Bool
  titan_infinite_doomed_state_enabled : Option Bool
  titan_shield_regen_enabled : Option Bool
  titan_classic_rodeo_enabled : Option Bool
  pilot_bleedout_mode : Option PilotBleedout
  pilot_bleedout_holster_when_down : Option Bool
  pilot_bleedout_die_on_team_bleedout : Option Bool
  pilot_bleedout_bleedout_time : Option ℚ
  pilot_bleedout_firstaid_time : Option ℚ
  pilot_bleedout_selfres_time : Option ℚ
  pilot_bleedout_firstaid_heal_percent : Option ℚ
  pilot_bleedout_down_ai_miss_chance : Option ℚ
  promode_weapons_enabled : Option Bool
  pilot_health_multiplier : Option ℚ
  pilot_respawn_delay : Option ℚ
  pilot_boosts_enabled : Option Bool
  pilot_boost_meter_overdrive : Option BoostMeterOverdrive
  pilot_boost_meter_multiplier : Option ℚ
  pilot_air_acceleration : Option ℚ
  pilot_collision_enabled : Option Bool
deriving DecidableEq

/-- The `Default` derive on `PlaylistOverrides`: all fields unset, empty riff set. -/
def PlaylistOverrides.mkDefault : PlaylistOverrides where
  riffs := ∅
  match_classic_mp_enabled := none
  match_epilogue_enabled := none
  match_scorelimit := none
  match_round_scorelimit := none
  match_timelimit := none
  match_round_timelimit := none
  match_oob_timer_enabled := none
  match_max_players := none
  titan_boost_meter_multiplier := none
  titan_aegis_upgrades_enabled := none
  titan_infinite_doomed_state_enabled := none
  titan_shield_regen_enabled := none
  titan_classic_rodeo_enabled := none
  pilot_bleedout_mode := none
  pilot_bleedout_holster_when_down := none
  pilot_bleedout_die_on_team_bleedout := none
  pilot_bleedout_bleedout_time := none
  pilot_bleedout_firstaid_time := none
  pilot_bleedout_selfres_time := none
  pilot_bleedout_firstaid_heal_percent := none
  pilot_bleedout_down_ai_miss_chance := none
  promode_weapons_enabled := none
  pilot_health_multiplier := none
  pilot_respawn_delay := none
  pilot_boosts_enabled := none
  pilot_boost_meter_overdrive := none
  pilot_boost_meter_multiplier := none
  pilot_air_acceleration := none
  pilot_collision_enabled := none

/-- config.rs, `PlaylistOverrides::or`.  The riff sets are unioned
(`riffs.extend(self.riffs)` on a copy of `other.riffs`); every scalar field
is `self.field.or(other.field)`. -/
def PlaylistOverrides.or (a other : PlaylistOverrides) : PlaylistOverrides where
  riffs := other.riffs ∪ a.riffs
  match_classic_mp_enabled := a.match_classic_mp_enabled.or other.match_classic_mp_enabled
  match_epilogue_enabled := a.match_epilogue_enabled.or other.match_epilogue_enabled
  match_scorelimit := a.match_scorelimit.or other.match_scorelimit
  match_round_scorelimit := a.match_round_scorelimit.or other.match_round_scorelimit
  match_timelimit := a.match_timelimit.or other.match_timelimit
  match_round_timelimit := a.match_round_timelimit.or other.match_round_timelimit
  match_oob_timer_enabled := a.match_oob_timer_enabled.or other.match_oob_timer_enabled
  match_max_players := a.match_max_players.or other.match_max_players
  titan_boost_meter_multiplier :=
    a.titan_boost_meter_multiplier.or other.titan_boost_meter_multiplier
  titan_aegis_upgrades_enabled :=
    a.titan_aegis_upgrades_enabled.or other.titan_aegis_upgrades_enabled
  titan_infinite_doomed_state_enabled :=
    a.titan_infinite_doomed_state_enabled.or other.titan_infinite_doomed_state_enabled
  titan_shield_regen_enabled :=
    a.titan_shield_regen_enabled.or other.titan_shield_regen_enabled
  titan_classic_rodeo_enabled :=
    a.titan_classic_rodeo_enabled.or other.titan_classic_rodeo_enabled
  pilot_bleedout_mode := a.pilot_bleedout_mode.or other.pilot_bleedout_mode
  pilot_bleedout_holster_when_down :=
    a.pilot_bleedout_holster_when_down.or other.pilot_bleedout_holster_when_down
  pilot_bleedout_die_on_team_bleedout :=
    a.pilot_bleedout_die_on_team_bleedout.or other.pilot_bleedout_die_on_team_bleedout
  pilot_bleedout_bleedout_time :=
    a.pilot_bleedout_bleedout_time.or other.pilot_bleedout_bleedout_time
  pilot_bleedout_firstaid_time :=
    a.pilot_bleedout_firstaid_time.or other.pilot_bleedout_firstaid_time
  pilot_bleedout_selfres_time :=
    a.pilot_bleedout_selfres_time.or other.pilot_bleedout_selfres_time
  pilot_bleedout_firstaid_heal_percent :=
    a.pilot_bleedout_firstaid_heal_percent.or other.pilot_bleedout_firstaid_heal_percent
  pilot_bleedout_down_ai_miss_chance :=
    a.pilot_bleedout_down_ai_miss_chance.or other.pilot_bleedout_down_ai_miss_chance
  promode_weapons_enabled := a.promode_weapons_enabled.or other.promode_weapons_enabled
  pilot_health_multiplier := a.pilot_health_multiplier.or other.pilot_health_multiplier
  pilot_respawn_delay := a.pilot_respawn_delay.or other.pilot_respawn_delay
  pilot_boosts_enabled := a.pilot_boosts_enabled.or other.pilot_boosts_enabled
  pilot_boost_meter_overdrive :=
    a.pilot_boost_meter_overdrive.or other.pilot_boost_meter_overdrive
  pilot_boost_meter_multiplier :=
    a.pilot_boost_meter_multiplier.or other.pilot_boost_meter_multiplier
  pilot_air_acceleration := a.pilot_air_acceleration.or other.pilot_air_acceleration
  pilot_collision_enabled := a.pilot_collision_enabled.or other.pilot_collision_enabled

/-- A combined option `c` is left-biased between `a` and `b`: it equals `a`
whenever `a` is set, and `b` otherwise. -/
def LeftBiased {α : Type} (c a b : Option α) : Prop :=
  (∀ v, a = some v → c = some v) ∧ (a = none → c = b)

theorem leftBiased_or {α : Type} (a b : Option α) : LeftBiased (a.or b) a b := by
  constructor
  · intro v hv
    subst hv
    rfl
  · intro hv
    subst hv
    rfl

theorem option_or_self {α : Type} (a : Option α) : a.or a = a := by
  cases a <;> rfl

theorem option_or_none {α : Type} (a : Option α) : a.or none = a := by
  cases a <;> rfl

/-- Claim C7: for all PlaylistOverrides values `a` and `b`, `a.or b` has every
scalar field equal to `a`'s field when set and `b`'s field otherwise, and has
`riffs` equal to the union of both riff sets; consequently `or` is idempotent
and the all-unset default is a right identity. -/
theorem playlistOverrides_or_spec :
    (∀ a b : PlaylistOverrides,
      (a.or b).riffs = a.riffs ∪ b.riffs ∧
      LeftBiased (a.or b).match_classic_mp_enabled a.match_classic_mp_enabled
        b.match_classic_mp_enabled ∧
      LeftBiased (a.or b).match_epilogue_enabled a.match_epilogue_enabled
        b.match_epilogue_enabled ∧
      LeftBiased (a.or b).match_scorelimit a.match_scorelimit b.match_scorelimit ∧
      LeftBiased (a.or b).match_round_scorelimit a.match_round_scorelimit
        b.match_round_scorelimit ∧
      LeftBiased (a.or b).match_timelimit a.match_timelimit b.match_timelimit ∧
      LeftBiased (a.or b).match_round_timelimit a.match_round_timelimit
        b.match_round_timelimit ∧
      LeftBiased (a.or b).match_oob_timer_enabled a.match_oob_timer_enabled
        b.match_oob_timer_enabled ∧
      LeftBiased (a.or b).match_max_players a.match_max_players b.match_max_players ∧
      LeftBiased (a.or b).titan_boost_meter_multiplier a.titan_boost_meter_multiplier
        b.titan_boost_meter_multiplier ∧
      LeftBiased (a.or b).titan_aegis_upgrades_enabled a.titan_aegis_upgrades_enabled
        b.titan_aegis_upgrades_enabled ∧
      LeftBiased (a.or b).titan_infinite_doomed_state_enabled
        a.titan_infinite_doomed_state_enabled b.titan_infinite_doomed_state_enabled ∧
      LeftBiased (a.or b).titan_shield_regen_enabled a.titan_shield_regen_enabled
        b.titan_shield_regen_enabled ∧
      LeftBiased (a.or b).titan_classic_rodeo_enabled a.titan_classic_rodeo_enabled
        b.titan_classic_rodeo_enabled ∧
      LeftBiased (a.or b).pilot_bleedout_mode a.pilot_bleedout_mode b.pilot_bleedout_mode ∧
      LeftBiased (a.or b).pilot_bleedout_holster_when_down
        a.pilot_bleedout_holster_when_down b.pilot_bleedout_holster_when_down ∧
      LeftBiased (a.or b).pilot_bleedout_die_on_team_bleedout
        a.pilot_bleedout_die_on_team_bleedout b.pilot_bleedout_die_on_team_bleedout ∧
      LeftBiased (a.or b).pilot_bleedout_bleedout_time a.pilot_bleedout_bleedout_time
        b.pilot_bleedout_bleedout_time ∧
      LeftBiased (a.or b).pilot_bleedout_firstaid_time a.pilot_bleedout_firstaid_time
        b.pilot_bleedout_firstaid_time ∧
      LeftBiased (a.or b).pilot_bleedout_selfres_time a.pilot_bleedout_selfres_time
        b.pilot_bleedout_selfres_time ∧
      LeftBiased (a.or b).pilot_bleedout_firstaid_heal_percent
        a.pilot_bleedout_firstaid_heal_percent b.pilot_bleedout_firstaid_heal_percent ∧
      LeftBiased (a.or b).pilot_bleedout_down_ai_miss_chance
        a.pilot_bleedout_down_ai_miss_chance b.pilot_bleedout_down_ai_miss_chance ∧
      LeftBiased (a.or b).promode_weapons_enabled a.promode_weapons_enabled
        b.promode_weapons_enabled ∧
      LeftBiased (a.or b).pilot_health_multiplier a.pilot_health_multiplier
        b.pilot_health_multiplier ∧
      LeftBiased (a.or b).pilot_respawn_delay a.pilot_respawn_delay b.pilot_respawn_delay ∧
      LeftBiased (a.or b).pilot_boosts_enabled a.pilot_boosts_enabled
        b.pilot_boosts_enabled ∧
      LeftBiased (a.or b).pilot_boost_meter_overdrive a.pilot_boost_meter_overdrive
        b.pilot_boost_meter_overdrive ∧
      LeftBiased (a.or b).pilot_boost_meter_multiplier a.pilot_boost_meter_multiplier
        b.pilot_boost_meter_multiplier ∧
      LeftBiased (a.or b).pilot_air_acceleration a.pilot_air_acceleration
        b.pilot_air_acceleration ∧
      LeftBiased (a.or b).pilot_collision_enabled a.pilot_collision_enabled
        b.pilot_collision_enabled) ∧
    (∀ a : PlaylistOverrides, a.or a = a) ∧
    (∀ a : PlaylistOverrides, a.or PlaylistOverrides.mkDefault = a) := by
  refine ⟨?_, ?_, ?_⟩
  · intro a b
    exact ⟨Finset.union_comm b.riffs a.riffs, leftBiased_or _ _, leftBiased_or _ _,
      leftBiased_or _ _, leftBiased_or _ _, leftBiased_or _ _, leftBiased_or _ _,
      leftBiased_or _ _, leftBiased_or _ _, leftBiased_or _ _, leftBiased_or _ _,
      leftBiased_or _ _, leftBiased_or _ _, leftBiased_or _ _, leftBiased_or _ _,
      leftBiased_or _ _, leftBiased_or _ _, leftBiased_or _ _, leftBiased_or _ _,
      leftBiased_or _ _, leftBiased_or _ _, leftBiased_or _ _, leftBiased_or _ _,
      leftBiased_or _ _, leftBiased_or _ _, leftBiased_or _ _, leftBiased_or _ _,
      leftBiased_or _ _, leftBiased_or _ _, leftBiased_or _ _⟩
  · intro a
    cases a
    simp only [PlaylistOverrides.or, option_or_self, Finset.union_self]
  · intro a
    cases a
    simp only [PlaylistOverrides.or, PlaylistOverrides.mkDefault, option_or_none,
      Finset.empty_union]

/-- Witness for C7 at the default value: idempotence evaluated concretely. -/
theorem playlistOverrides_or_spec_witness :
    PlaylistOverrides.mkDefault.or PlaylistOverrides.mkDefault =
      PlaylistOverrides.mkDefault :=
  playlistOverrides_or_spec.2.1 PlaylistOverrides.mkDefault

/-! ### Argument builder (arg_builder.rs)

`LinkedHashMap` is modelled as an association list in insertion order:
inserting an existing key replaces its value in place, a new key is appended.
`HashSet<String>` is modelled as a duplicate-free list (iteration order is
unspecified in the source; the claims do not depend on it). -/

/-- `LinkedHashMap::insert`: replace in place if the key is present,
otherwise append at the back. -/
def lhmInsert (k v : String) : List (String × String) → List (String × String)
  | [] => [(k, v)]
  | (k', v') :: rest => if k' = k then (k, v) :: rest else (k', v') :: lhmInsert k v rest

/-- `LinkedHashMap::remove`. -/
def lhmRemove (k : String) (l : List (String × String)) : List (String × String) :=
  l.filter (fun p => p.1 ≠ k)

/-- `HashSet::insert` (no duplicates). -/
def hsInsert (k : String) (l : List String) : List String :=
  if k ∈ l then l else l ++ [k]

/-- `HashSet::remove`. -/
def hsRemove (k : String) (l : List String) : List String :=
  l.filter (fun s => s ≠ k)

/-- arg_builder.rs, `struct ArgBuilder`: the four buckets. -/
structure ArgBuilder where
  kv_env_args : List (String × String)
  flag_args : List String
  kv_args : List (String × String)
  playlist_vars : List (String × String)
deriving DecidableEq

namespace ArgBuilder

/-- `ArgBuilder::set_flag`. -/
def set_flag (b : ArgBuilder) (key : String) (is_enabled : Bool) : ArgBuilder :=
  if is_enabled then { b with flag_args := hsInsert key b.flag_args }
  else { b with flag_args := hsRemove key b.flag_args }

/-- `ArgBuilder::set_kv_env`.  The `impl IntoVarValue` argument is modelled as
the `Option String` produced by `into_var_value`. -/
def set_kv_env (b : ArgBuilder) (key : String) (value : Option String) : ArgBuilder :=
  match value with
  | some v => { b with kv_env_args := lhmInsert key v b.kv_env_args }
  | none => { b with kv_env_args := lhmRemove key b.kv_env_args }

/-- `ArgBuilder::set_kv`. -/
def set_kv (b : ArgBuilder) (key : String) (value : Option String) : ArgBuilder :=
  match value with
  | some v => { b with kv_args := lhmInsert key v b.kv_args }
  | none => { b with kv_args := lhmRemove key b.kv_args }

/-- `ArgBuilder::set_playlist_var`. -/
def set_playlist_var (b : ArgBuilder) (key : String) (value : Option String) : ArgBuilder :=
  match value with
  | some v => { b with playlist_vars := lhmInsert key v b.playlist_vars }
  | none => { b with playlist_vars := lhmRemove key b.playlist_vars }

/-- `bool::into_var_value`: booleans encode as "0" or "1". -/
def boolVal (b : Bool) : String := if b then "1" else "0"

/-- `ArgBuilder::new`: empty buckets, then `set_kv("+spewlog_enable", false)`. -/
def new : ArgBuilder :=
  set_kv ⟨[], [], [], []⟩ "+spewlog_enable" (some (boolVal false))

/-- Flattens an ordered key-value bucket into alternating key/value tokens
(`flat_map(|(key, value)| [key, value])`). -/
def pairTokens : List (String × String) → List String
  | [] => []
  | (k, v) :: rest => k :: v :: pairTokens rest

/-- A token wrapped in double quotes (the closure in `build`). -/
def quoteTok (s : String) : String := "\"" ++ s ++ "\""

/-- The `extra_args` vector assembled by `ArgBuilder::build`: flags, then
flattened kv args, then the `+setplaylistvaroverrides` token, then the single
token holding the space-joined playlist variables. -/
def buildTokens (b : ArgBuilder) : List String :=
  b.flag_args ++ pairTokens b.kv_args ++
    ["+setplaylistvaroverrides", String.intercalate " " (pairTokens b.playlist_vars)]

/-- The env-var entry list of `ArgBuilder::build`: the kv-env bucket with
`NS_EXTRA_ARGUMENTS` inserted, holding the space-joined double-quoted tokens. -/
def buildEnvEntries (b : ArgBuilder) : List (String × String) :=
  lhmInsert "NS_EXTRA_ARGUMENTS"
    (String.intercalate " " ((buildTokens b).map quoteTok)) b.kv_env_args

/-- `ArgBuilder::build`: the strings pushed onto `out_envs`. -/
def build (b : ArgBuilder) : List String :=
  (buildEnvEntries b).map (fun p => p.1 ++ "=" ++ p.2)

end ArgBuilder

theorem lhmInsert_of_not_mem (k v : String) (l : List (String × String))
    (h : ∀ p ∈ l, p.1 ≠ k) : lhmInsert k v l = l ++ [(k, v)] := by
  induction l with
  | nil => rfl
  | cons p rest ih =>
    obtain ⟨k', v'⟩ := p
    have hk : k' ≠ k := h (k', v') (List.mem_cons_self _ _)
    simp only [lhmInsert, if_neg hk, List.cons_append, List.cons.injEq, true_and]
    exact ih (fun q hq => h q (List.mem_cons_of_mem _ hq))

/-- Claim C8: `ArgBuilder.build` emits each kv-env entry as its own KEY=VALUE
string plus exactly one `NS_EXTRA_ARGUMENTS` variable whose value space-joins
all extra-argument tokens, each wrapped in double quotes; the token list ends
with `+setplaylistvaroverrides` immediately followed by the single token of
space-joined playlist variables, the empty string when there are none. -/
theorem argBuilder_build_spec (b : ArgBuilder)
    (h : ∀ p ∈ b.kv_env_args, p.1 ≠ "NS_EXTRA_ARGUMENTS") :
    (∀ p ∈ b.kv_env_args, (p.1 ++ "=" ++ p.2) ∈ b.build) ∧
    (b.buildEnvEntries.countP (fun p => p.1 = "NS_EXTRA_ARGUMENTS") = 1) ∧
    (("NS_EXTRA_ARGUMENTS",
        String.intercalate " " ((b.buildTokens).map ArgBuilder.quoteTok)) ∈
      b.buildEnvEntries) ∧
    (∃ pre, b.buildTokens = pre ++ ["+setplaylistvaroverrides",
        String.intercalate " " (ArgBuilder.pairTokens b.playlist_vars)]) ∧
    (b.playlist_vars = [] → b.buildTokens.getLast? = some "") := by
  have hins : b.buildEnvEntries = b.kv_env_args ++
      [("NS_EXTRA_ARGUMENTS",
        String.intercalate " " ((b.buildTokens).map ArgBuilder.quoteTok))] :=
    lhmInsert_of_not_mem _ _ _ h
  refine ⟨?_, ?_, ?_, ?_, ?_⟩
  · intro p hp
    unfold ArgBuilder.build
    rw [hins]
    exact List.mem_map_of_mem _ (List.mem_append_left _ hp)
  · rw [hins, List.countP_append]
    have h0 : b.kv_env_args.countP (fun p => p.1 = "NS_EXTRA_ARGUMENTS") = 0 := by
      rw [List.countP_eq_zero]
      intro p hp
      simpa using h p hp
    simp [h0]
  · rw [hins]
    exact List.mem_append_right _ (List.mem_singleton.mpr rfl)
  · exact ⟨b.flag_args ++ ArgBuilder.pairTokens b.kv_args, by
      simp [ArgBuilder.buildTokens]⟩
  · intro hpv
    simp only [ArgBuilder.buildTokens, hpv, ArgBuilder.pairTokens, List.append_assoc,
      List.cons_append, List.nil_append, List.getLast?_append, List.getLast?_cons_cons,
      List.getLast?_singleton]
    rfl

/-- Witness for C8 at the freshly constructed builder. -/
theorem argBuilder_build_spec_witness :
    (∀ p ∈ ArgBuilder.new.kv_env_args, p.1 ≠ "NS_EXTRA_ARGUMENTS") ∧
    (ArgBuilder.new.buildEnvEntries.countP
      (fun p => p.1 = "NS_EXTRA_ARGUMENTS") = 1) ∧
    (ArgBuilder.new.playlist_vars = [] →
      ArgBuilder.new.buildTokens.getLast? = some "") := by
  have h : ∀ p ∈ ArgBuilder.new.kv_env_args, p.1 ≠ "NS_EXTRA_ARGUMENTS" := by
    intro p hp
    simp [ArgBuilder.new, ArgBuilder.set_kv, ArgBuilder.boolVal] at hp
  have hmain := argBuilder_build_spec ArgBuilder.new h
  exact ⟨h, hmain.2.1, hmain.2.2.2.2⟩

/-! ### Configuration model (config.rs) -/

/-- config.rs, `struct FilledGameConfig`.  `f64` fields are modelled as `ℚ`,
`i64` as `ℤ`; the external `cron_clock::Schedule` is modelled by its cron
expression string (the cluster only tests its presence; evaluation is an
external collaborator answered through the poll oracle); `HashSet<String>` as
`Finset String`; `LinkedHashMap` as an ordered association list. -/
structure FilledGameConfig where
  docker_image : String
  game_dir : String
  description : String
  password : String
  tick_rate : ℕ
  update_rate : ℕ
  min_update_rate : ℕ
  report_to_master : Bool
  master_url : String
  allow_insecure : Bool
  use_sockets_for_loopback : Bool
  everything_unlocked : Bool
  should_return_to_lobby : Bool
  player_permissions : PrivateLobbyPlayerPermissions
  only_host_can_start : Bool
  countdown_length_seconds : ℕ
  mods : Finset String
  logs_dir : String
  graphics_mode : GraphicsMode
  restart_schedule : Option String
  perf_memory_limit_bytes : Option ℤ
  perf_virtual_memory_limit_bytes : Option ℤ
  perf_cpus : Option ℚ
  perf_cpu_set : Option String
  playlist : String
  mode : Option String
  map : Option String
  default_mode : Option String
  default_map : Option String
  playlist_overrides : PlaylistOverrides
  extra_playlist_vars : List (String × String)
  extra_vars : List (String × String)
  extra_args : List String
  extra_binds : List String
deriving DecidableEq

/-- `struct FilledInstanceConfig`: a declared server.  `auth_port` is taken
from the cluster revision in server_cluster.rs, which reads
`server.config.auth_port` (the config.rs revision in the snapshot has dropped
the field, but the cluster code under verification requires it). -/
structure FilledInstanceConfig where
  name : String
  auth_port : Option ℕ
  game_port : Option ℕ
  game_config : FilledGameConfig
deriving DecidableEq

/-- `RangeInclusive<u16>`: an inclusive port range. -/
structure PortRange where
  lo : ℕ
  hi : ℕ
deriving DecidableEq

/-- The fields of config.rs `struct Config` that `ServerCluster::poll` reads:
the two inclusive allocation pools (`config.auth_ports`, `config.game_ports`).
The remaining fields (poll interval, defaults, declared servers) are consumed
by the supervisor loop, not by the cluster operations. -/
structure Config where
  auth_ports : PortRange
  game_ports : PortRange
deriving DecidableEq

/-! ### Server state (server_cluster.rs) -/

/-- server_cluster.rs, `struct RunningServer`.  `start_time` is the engine's
created timestamp, modelled as `ℕ`. -/
structure RunningServer where
  container_id : String
  auth_port : ℕ
  game_port : ℕ
  start_time : ℕ
deriving DecidableEq

/-- server_cluster.rs, `enum ServerState`. -/
inductive ServerState
  | notRunning
  | running (rs : RunningServer)
deriving DecidableEq

/-- server_cluster.rs, `struct Server`. -/
structure Server where
  id : String
  config : FilledInstanceConfig
  state : ServerState
  is_old : Bool
deriving DecidableEq

/-- `Server::new`. -/
def Server.new (id : String) (config : FilledInstanceConfig) : Server :=
  ⟨id, config, .notRunning, false⟩

/-- `Server::is_running` shorthand (pattern matches in the source). -/
def Server.isRunning (s : Server) : Bool :=
  match s.state with
  | .running _ => true
  | .notRunning => false

/-- server_cluster.rs, `struct SerializedServer`. -/
structure SerializedServer where
  name : String
  container_id : String
  auth_port : ℕ
  game_port : ℕ
deriving DecidableEq

/-- server_cluster.rs, `struct ServerCluster`. -/
structure ServerCluster where
  servers : List Server
deriving DecidableEq

/-! ### Server::stop -/

/-- Engine behaviour for one `Server::stop` call: whether `stop_container`
was accepted, and how many `inspect_container` calls still saw the container
before one reported it missing (the loop is assumed to terminate: a stopped
container is eventually gone). -/
structure StopOracle where
  accepted : Bool
  goneAfter : ℕ
deriving DecidableEq

/-- Result of `Server::stop`: the updated server, the number of
`inspect_container` calls made, and the list of sleeps (in milliseconds)
performed between inspects. -/
structure StopResult where
  server : Server
  inspects : ℕ
  sleeps_ms : List ℕ
deriving DecidableEq

/-- server_cluster.rs, `Server::stop`.  If running: ask the engine to stop the
container; on refusal log and return with the state untouched; on acceptance
re-inspect, sleeping 100 ms after every inspect that still sees the container,
until an inspect reports it missing, then fall through and set `NotRunning`. -/
def Server.stop (s : Server) (o : StopOracle) : StopResult :=
  match s.state with
  | .notRunning => ⟨{ s with state := .notRunning }, 0, []⟩
  | .running _ =>
    if o.accepted then
      ⟨{ s with state := .notRunning }, o.goneAfter + 1, List.replicate o.goneAfter 100⟩
    else ⟨s, 0, []⟩

/-- A minimal concrete `FilledGameConfig` used by concrete test clusters. -/
def testGameConfig : FilledGameConfig :=
  ⟨"img", "/game", "", "", 60, 20, 20, true, "", false, true, true,
    true, .all, false, 15, ∅, "/logs", .default, none, none, none, none, none,
    "private_match", none, none, none, none, PlaylistOverrides.mkDefault,
    [], [], [], []⟩

/-- A concrete instance config with the given pinned ports. -/
def testInstance (name : String) (auth_port game_port : Option ℕ) :
    FilledInstanceConfig :=
  ⟨name, auth_port, game_port, testGameConfig⟩

/-- A concrete running server used by witnesses. -/
def testRunningA : Server :=
  ⟨"a", testInstance "a" none none, .running ⟨"c1", 8081, 37015, 7⟩, false⟩

/-- Claim C5: `Server.stop` on a Running server leaves the server unchanged
(same container, ports and start time, no inspect loop) when the engine
refuses the stop; when the engine accepts, it re-inspects until the container
is reported missing, sleeping 100 ms between consecutive inspects, and only
then sets the state to NotRunning. -/
theorem server_stop_spec (s : Server) (o : StopOracle) (rs : RunningServer)
    (h : s.state = .running rs) :
    (o.accepted = false → (s.stop o).server = s ∧ (s.stop o).inspects = 0) ∧
    (o.accepted = true →
      (s.stop o).server = { s with state := .notRunning } ∧
      (s.stop o).inspects = o.goneAfter + 1 ∧
      (s.stop o).sleeps_ms = List.replicate o.goneAfter 100) := by
  constructor
  · intro ha
    simp [Server.stop, h, ha]
  · intro ha
    simp [Server.stop, h, ha]

/-- Witness for C5: a concrete running server, with the engine refusing in one
run and accepting after two still-alive inspects in the other. -/
theorem server_stop_spec_witness :
    (testRunningA.stop ⟨false, 0⟩).server = testRunningA ∧
    (testRunningA.stop ⟨true, 2⟩).server.state = .notRunning ∧
    (testRunningA.stop ⟨true, 2⟩).sleeps_ms = [100, 100] := by
  have h := server_stop_spec testRunningA ⟨false, 0⟩ ⟨"c1", 8081, 37015, 7⟩ rfl
  have h2 := server_stop_spec testRunningA ⟨true, 2⟩ ⟨"c1", 8081, 37015, 7⟩ rfl
  refine ⟨(h.1 rfl).1, ?_, ?_⟩
  · rw [(h2.2 rfl).1]
  · exact (h2.2 rfl).2.2

/-! ### Server::start -/

/-- server_cluster.rs, `enum StartServerError` plus the two raw engine
failures propagated by `?` from `create_container` and `start_container`. -/
inductive StartError
  | createFailed
  | startFailed
  | containerDidntStart
  | containerHasNoCreated
  | containerHasNoIp
  | crashedWhileStarting
deriving DecidableEq

/-- Engine behaviour for one `Server::start` call.  `createRes` is the new
container id, or `none` when the engine refused `create_container`;
`created`/`ip` are the inspect response's created time and parseable first
network IP; `waitConnected` records how the readiness loop ends: `true` when
a TCP connect to the auth port eventually succeeds, `false` when the
container is observed to have crashed first. -/
structure StartOracle where
  createRes : Option String
  startOk : Bool
  inspectOk : Bool
  created : Option ℕ
  ip : Option String
  waitConnected : Bool

/-- server_cluster.rs, `Server::start`.  Every failing step returns the error
without touching `self.state`; only the final success assigns
`ServerState::Running`. -/
def Server.start (s : Server) (auth_port game_port : ℕ) (o : StartOracle) :
    Option StartError × Server :=
  match o.createRes with
  | none => (some .createFailed, s)
  | some container_id =>
    if !o.startOk then (some .startFailed, s)
    else if !o.inspectOk then (some .containerDidntStart, s)
    else
      match o.created with
      | none => (some .containerHasNoCreated, s)
      | some start_time =>
        match o.ip with
        | none => (some .containerHasNoIp, s)
        | some _ =>
          if !o.waitConnected then (some .crashedWhileStarting, s)
          else (none, { s with
            state := .running ⟨container_id, auth_port, game_port, start_time⟩ })

/-- Claim C9: under the precondition that the server is NotRunning, every
error-returning path of `Server.start` leaves the server (and in particular
its state) unchanged at NotRunning; the state becomes Running exactly when
`start` returns success, and then carries the requested ports. -/
theorem server_start_error_spec (s : Server) (a g : ℕ) (o : StartOracle)
    (h : s.state = .notRunning) :
    (∀ e, (s.start a g o).1 = some e →
      (s.start a g o).2 = s ∧ (s.start a g o).2.state = .notRunning) ∧
    ((s.start a g o).1 = none →
      ∃ cid t, (s.start a g o).2.state = .running ⟨cid, a, g, t⟩) ∧
    ((s.start a g o).2.state ≠ .notRunning → (s.start a g o).1 = none) := by
  obtain ⟨cr, so, io, cd, ip, wc⟩ := o
  cases cr <;> cases so <;> cases io <;> cases cd <;> cases ip <;> cases wc <;>
    simp [Server.start, h]

/-- Witness for C9: a concrete NotRunning server; the engine refuses create in
one run and everything succeeds in the other. -/
theorem server_start_error_spec_witness :
    ((Server.new "a" (testInstance "a" none none)).start 8081 37015
      ⟨none, true, true, some 7, some "172.17.0.2", true⟩).2 =
        Server.new "a" (testInstance "a" none none) ∧
    ((Server.new "a" (testInstance "a" none none)).start 8081 37015
      ⟨some "c1", true, true, some 7, some "172.17.0.2", true⟩).2.state =
      .running ⟨"c1", 8081, 37015, 7⟩ := by
  have h := server_start_error_spec (Server.new "a" (testInstance "a" none none))
    8081 37015 ⟨none, true, true, some 7, some "172.17.0.2", true⟩ rfl
  exact ⟨(h.1 .createFailed rfl).1, rfl⟩

/-! ### ServerCluster::load_servers -/

/-- `self.servers.iter_mut().find(|server| server.id == new_server.id)`. -/
def findById (l : List Server) (i : String) : Option Server :=
  match l with
  | [] => none
  | o :: rest => if o.id = i then some o else findById rest i

/-- One iteration of the reload loop: find the first existing server with the
new server's id and `mem::swap` the two states; the returned string list
holds the id when the config-changed warning fires. -/
def loadOne (old : List Server) (n : Server) : List Server × Server × List String :=
  match old with
  | [] => ([], n, [])
  | o :: rest =>
    if o.id = n.id then
      ({ o with state := n.state } :: rest, { n with state := o.state },
        if n.config ≠ o.config then [n.id] else [])
    else
      let r := loadOne rest n
      (o :: r.1, r.2.1, r.2.2)

/-- The full reload loop over `new_servers`, threading the mutated old list. -/
def loadLoop (old : List Server) : List Server → List Server × List Server × List String
  | [] => (old, [], [])
  | n :: ns =>
    let r1 := loadOne old n
    let r2 := loadLoop r1.1 ns
    (r2.1, r1.2.1 :: r2.2.1, r1.2.2 ++ r2.2.2)

/-- server_cluster.rs, `ServerCluster::load_servers`: swap runtime state into
matching new entries, then re-insert every old entry that is still Running
(marked `is_old`) at the end; old NotRunning entries are dropped.  Also
returns the ids for which the config-changed warning was logged. -/
def ServerCluster.load_servers (c : ServerCluster) (new : List Server) :
    ServerCluster × List String :=
  let r := loadLoop c.servers new
  (⟨r.2.1 ++ (r.1.filter (fun s => s.isRunning)).map (fun s => { s with is_old := true })⟩,
    r.2.2)

/-- The state the reload protocol leaves on a new entry: the first matching
old server's state, if any. -/
def newStateOf (old : List Server) (n : Server) : ServerState :=
  match findById old n.id with
  | some o => o.state
  | none => n.state

/-- The config-changed warnings contributed by one new entry. -/
def warnOf (old : List Server) (n : Server) : List String :=
  match findById old n.id with
  | some o => if n.config ≠ o.config then [n.id] else []
  | none => []

theorem findById_eq_none (l : List Server) (i : String) (h : ∀ o ∈ l, o.id ≠ i) :
    findById l i = none := by
  induction l with
  | nil => rfl
  | cons o rest ih =>
    simp only [findById, if_neg (h o (List.mem_cons_self _ _))]
    exact ih (fun x hx => h x (List.mem_cons_of_mem _ hx))

theorem findById_mem_of_nodup (l : List Server) (o : Server)
    (hnd : (l.map Server.id).Nodup) (ho : o ∈ l) : findById l o.id = some o := by
  induction l with
  | nil => cases ho
  | cons x rest ih =>
    rcases List.mem_cons.mp ho with rfl | hmem
    · simp [findById]
    · have hx : x.id ≠ o.id := by
        intro hx
        have : o.id ∈ rest.map Server.id := List.mem_map_of_mem _ hmem
        rw [← hx] at this
        exact (List.nodup_cons.mp (by simpa using hnd)).1 this
      simp only [findById, if_neg hx]
      exact ih (List.nodup_cons.mp (by simpa using hnd)).2 hmem

theorem findById_congr_state (pre post : List Server) (x : Server) (st : ServerState)
    (t : String) (ht : x.id ≠ t) :
    findById (pre ++ { x with state := st } :: post) t = findById (pre ++ x :: post) t := by
  induction pre with
  | nil => simp [findById, if_neg ht]
  | cons p rest ih =>
    simp only [List.cons_append, findById, List.append_eq]
    rw [ih]

theorem loadOne_of_no_match (old : List Server) (n : Server)
    (h : ∀ o ∈ old, o.id ≠ n.id) : loadOne old n = (old, n, []) := by
  induction old with
  | nil => rfl
  | cons o rest ih =>
    simp only [loadOne, if_neg (h o (List.mem_cons_self _ _))]
    rw [ih (fun x hx => h x (List.mem_cons_of_mem _ hx))]

theorem loadOne_of_split (pre post : List Server) (o n : Server)
    (hpre : ∀ p ∈ pre, p.id ≠ n.id) (ho : o.id = n.id) :
    loadOne (pre ++ o :: post) n =
      (pre ++ { o with state := n.state } :: post, { n with state := o.state },
        if n.config ≠ o.config then [n.id] else []) := by
  induction pre with
  | nil => simp [loadOne, ho]
  | cons p rest ih =>
    simp only [List.cons_append, loadOne, if_neg (hpre p (List.mem_cons_self _ _)),
      List.append_eq]
    rw [ih (fun x hx => hpre x (List.mem_cons_of_mem _ hx))]

theorem findById_some_split (l : List Server) (i : String) (o : Server)
    (h : findById l i = some o) :
    ∃ pre post, l = pre ++ o :: post ∧ (∀ p ∈ pre, p.id ≠ i) ∧ o.id = i := by
  induction l with
  | nil => cases h
  | cons x rest ih =>
    by_cases hx : x.id = i
    · refine ⟨[], rest, ?_, by simp, ?_⟩
      · simp only [findById, if_pos hx] at h
        rw [Option.some_inj.mp h]
        simp
      · simp only [findById, if_pos hx] at h
        exact (Option.some_inj.mp h) ▸ hx
    · simp only [findById, if_neg hx] at h
      obtain ⟨pre, post, hl, hpre, hoid⟩ := ih h
      exact ⟨x :: pre, post, by rw [hl]; simp, by
        intro p hp
        rcases List.mem_cons.mp hp with rfl | hp
        · exact hx
        · exact hpre p hp, hoid⟩

theorem forall_of_findById_none (l : List Server) (i : String)
    (h : findById l i = none) : ∀ o ∈ l, o.id ≠ i := by
  induction l with
  | nil => intro o ho; cases ho
  | cons x rest ih =>
    intro o ho
    by_cases hx : x.id = i
    · simp [findById, hx] at h
    · rcases List.mem_cons.mp ho with rfl | ho
      · exact hx
      · simp only [findById, if_neg hx] at h
        exact ih h o ho

/-- Characterization of the reload loop when new entries are fresh
(all NotRunning) and ids are duplicate-free on both sides: every old entry
matched by a new id has its state zeroed, every new entry takes the state of
its first old match, and a warning fires per matched entry whose config
changed. -/
theorem loadLoop_char (new : List Server) :
    ∀ old : List Server, (∀ n ∈ new, n.state = .notRunning) →
    (old.map Server.id).Nodup → (new.map Server.id).Nodup →
    (loadLoop old new).1 = old.map (fun o =>
        if (findById new o.id).isSome then { o with state := .notRunning } else o) ∧
    (loadLoop old new).2.1 = new.map (fun n => { n with state := newStateOf old n }) ∧
    (loadLoop old new).2.2 = (new.map (warnOf old)).flatten := by
  induction new with
  | nil =>
    intro old _ _ _
    refine ⟨?_, rfl, rfl⟩
    simp [loadLoop, findById]
  | cons n ns ih =>
    intro old hnew hold hnewN
    have hnew_tail : ∀ x ∈ ns, x.state = .notRunning :=
      fun x hx => hnew x (List.mem_cons_of_mem _ hx)
    have hnewN' : (Server.id n :: List.map Server.id ns).Nodup := by
      rw [← List.map_cons]; exact hnewN
    have hnewN_tail : (ns.map Server.id).Nodup := (List.nodup_cons.mp hnewN').2
    have hn_notin_ns : ∀ x ∈ ns, x.id ≠ n.id := by
      intro x hx he
      exact (List.nodup_cons.mp hnewN').1 (he ▸ List.mem_map_of_mem Server.id hx)
    cases hm : findById old n.id with
    | none =>
      have hno := forall_of_findById_none old n.id hm
      have hload : loadOne old n = (old, n, []) := loadOne_of_no_match old n hno
      have hrec := ih old hnew_tail hold hnewN_tail
      have hstep : ∀ o ∈ old, findById (n :: ns) o.id = findById ns o.id := by
        intro o ho
        have : n.id ≠ o.id := fun he => hno o ho he.symm
        simp [findById, this]
      refine ⟨?_, ?_, ?_⟩
      · simp only [loadLoop, hload]
        rw [hrec.1]
        exact List.map_congr_left (fun o ho => by rw [hstep o ho])
      · simp only [loadLoop, hload, List.map_cons]
        rw [hrec.2.1]
        have hns : newStateOf old n = n.state := by simp [newStateOf, hm]
        rw [hns]
      · simp only [loadLoop, hload, List.map_cons, List.flatten_cons]
        rw [hrec.2.2]
        have : warnOf old n = [] := by simp [warnOf, hm]
        rw [this, List.nil_append]
    | some o =>
      obtain ⟨pre, post, hsplit, hpre, hoid⟩ := findById_some_split old n.id o hm
      subst hsplit
      have hn : n.state = .notRunning := hnew n (List.mem_cons_self _ _)
      have hmid : o.id ∉ pre.map Server.id ∧ o.id ∉ post.map Server.id := by
        rw [List.map_append, List.map_cons] at hold
        have h1 := (List.nodup_append.mp hold).2.1
        have h2 := (List.nodup_append.mp hold).2.2
        refine ⟨fun hc => h2 hc (List.mem_cons_self _ _), ?_⟩
        exact (List.nodup_cons.mp h1).1
      have hpost_ne : ∀ x ∈ post, x.id ≠ n.id := by
        intro x hx he
        rw [← hoid] at he
        exact hmid.2 (he ▸ List.mem_map_of_mem Server.id hx)
      have hload := loadOne_of_split pre post o n hpre hoid
      have hids1 : (pre ++ { o with state := n.state } :: post).map Server.id =
          (pre ++ o :: post).map Server.id := by simp
      have hrec := ih (pre ++ { o with state := n.state } :: post) hnew_tail
        (by rw [hids1]; exact hold) hnewN_tail
      have hfind_ns_o : findById ns o.id = none := by
        refine findById_eq_none ns o.id (fun x hx he => hn_notin_ns x hx ?_)
        rw [he, hoid]
      have hfind_other : ∀ t, t ≠ n.id →
          findById (pre ++ { o with state := n.state } :: post) t =
            findById (pre ++ o :: post) t := by
        intro t ht
        exact findById_congr_state pre post o n.state t (fun he => ht (he ▸ hoid))
      refine ⟨?_, ?_, ?_⟩
      · simp only [loadLoop, hload]
        rw [hrec.1]
        rw [List.map_append, List.map_append, List.map_cons, List.map_cons]
        have hprem : ∀ x ∈ pre, (if (findById ns x.id).isSome
            then { x with state := ServerState.notRunning } else x) =
            (if (findById (n :: ns) x.id).isSome
            then { x with state := ServerState.notRunning } else x) := by
          intro x hx
          have : n.id ≠ x.id := fun he => hpre x hx he.symm
          simp [findById, this]
        have hpostm : ∀ x ∈ post, (if (findById ns x.id).isSome
            then { x with state := ServerState.notRunning } else x) =
            (if (findById (n :: ns) x.id).isSome
            then { x with state := ServerState.notRunning } else x) := by
          intro x hx
          have : n.id ≠ x.id := fun he => hpost_ne x hx he.symm
          simp [findById, this]
        rw [List.map_congr_left hprem, List.map_congr_left hpostm]
        have hmidm : (if (findById ns ({ o with state := n.state } : Server).id).isSome
            then { ({ o with state := n.state } : Server) with
              state := ServerState.notRunning } else { o with state := n.state }) =
            (if (findById (n :: ns) o.id).isSome
            then { o with state := ServerState.notRunning } else o) := by
          simp only [hfind_ns_o]
          have : findById (n :: ns) o.id = some n := by simp [findById, hoid.symm]
          simp [this, hn]
        rw [hmidm]
      · simp only [loadLoop, hload, List.map_cons]
        rw [hrec.2.1]
        have hhead : newStateOf (pre ++ o :: post) n = o.state := by
          simp [newStateOf, hm]
        rw [hhead]
        have htail : ∀ x ∈ ns, ({ x with
            state := newStateOf (pre ++ { o with state := n.state } :: post) x } : Server) =
            { x with state := newStateOf (pre ++ o :: post) x } := by
          intro x hx
          rw [show newStateOf (pre ++ { o with state := n.state } :: post) x =
              newStateOf (pre ++ o :: post) x from by
            unfold newStateOf
            rw [hfind_other x.id (hn_notin_ns x hx)]]
        rw [List.map_congr_left htail]
      · simp only [loadLoop, hload, List.map_cons, List.flatten_cons]
        rw [hrec.2.2]
        have hhead : (if n.config ≠ o.config then [n.id] else []) =
            warnOf (pre ++ o :: post) n := by
          simp [warnOf, hm]
        have htail : ∀ x ∈ ns,
            warnOf (pre ++ { o with state := n.state } :: post) x =
              warnOf (pre ++ o :: post) x := by
          intro x hx
          unfold warnOf
          rw [hfind_other x.id (hn_notin_ns x hx)]
        rw [List.map_congr_left htail, hhead]

/-- Claim C3: `load_servers` moves each matched server's runtime state into
the matching new entry (with a config-change warning exactly when the configs
differ), re-inserts unmatched still-Running servers at the end marked
`is_old`, and drops unmatched NotRunning servers.  The hypotheses reflect the
call sites: reloads pass freshly built NotRunning servers, and ids are the
unique keys of the config mapping. -/
theorem load_servers_spec (c : ServerCluster) (new : List Server)
    (hnew : ∀ n ∈ new, n.state = .notRunning)
    (hold : (c.servers.map Server.id).Nodup)
    (hnewN : (new.map Server.id).Nodup) :
    (∀ n ∈ new, ∀ o ∈ c.servers, o.id = n.id →
      { n with state := o.state } ∈ (c.load_servers new).1.servers ∧
      (n.id ∈ (c.load_servers new).2 ↔ n.config ≠ o.config)) ∧
    (∀ o ∈ c.servers, o.isRunning = true → (∀ n ∈ new, n.id ≠ o.id) →
      { o with is_old := true } ∈ ((c.load_servers new).1.servers.drop new.length)) ∧
    (∀ o ∈ c.servers, o.state = .notRunning → (∀ n ∈ new, n.id ≠ o.id) →
      ∀ s ∈ (c.load_servers new).1.servers, s.id ≠ o.id) := by
  obtain ⟨h1, h2, h3⟩ := loadLoop_char new c.servers hnew hold hnewN
  have hres : (c.load_servers new).1.servers =
      new.map (fun n => { n with state := newStateOf c.servers n }) ++
      ((c.servers.map (fun o => if (findById new o.id).isSome
          then { o with state := ServerState.notRunning } else o)).filter
        (fun s => s.isRunning)).map (fun s => { s with is_old := true }) := by
    simp only [ServerCluster.load_servers]
    rw [h1, h2]
  have hwar : (c.load_servers new).2 = (new.map (warnOf c.servers)).flatten := by
    simp only [ServerCluster.load_servers]
    rw [h3]
  refine ⟨?_, ?_, ?_⟩
  · intro n hn o ho hid
    have hfind : findById c.servers n.id = some o := by
      rw [← hid]
      exact findById_mem_of_nodup c.servers o hold ho
    constructor
    · rw [hres]
      apply List.mem_append_left
      have hmem := List.mem_map_of_mem
        (fun x => ({ x with state := newStateOf c.servers x } : Server)) hn
      simpa [newStateOf, hfind] using hmem
    · rw [hwar]
      constructor
      · intro hmem
        obtain ⟨w, hw, hnw⟩ := List.mem_flatten.mp hmem
        obtain ⟨n', hn', rfl⟩ := List.mem_map.mp hw
        unfold warnOf at hnw
        cases hf' : findById c.servers n'.id with
        | none =>
          simp only [hf'] at hnw
          cases hnw
        | some o' =>
          simp only [hf'] at hnw
          by_cases hc : n'.config ≠ o'.config
          · rw [if_pos hc] at hnw
            have hid' : n.id = n'.id := List.mem_singleton.mp hnw
            have : n' = n := List.inj_on_of_nodup_map hnewN hn' hn hid'.symm
            subst this
            rw [hfind] at hf'
            rw [Option.some_inj.mp hf']
            exact hc
          · rw [if_neg hc] at hnw; cases hnw
      · intro hcfg
        refine List.mem_flatten.mpr ⟨warnOf c.servers n, List.mem_map_of_mem _ hn, ?_⟩
        unfold warnOf
        simp only [hfind, if_pos hcfg]
        exact List.mem_singleton.mpr rfl
  · intro o ho hrun hun
    have hf : findById new o.id = none := findById_eq_none new o.id hun
    rw [hres]
    have hlen : (new.map (fun n =>
        ({ n with state := newStateOf c.servers n } : Server))).length = new.length :=
      List.length_map _ _
    rw [show ∀ t : List Server, (new.map (fun n =>
        ({ n with state := newStateOf c.servers n } : Server)) ++ t).drop new.length = t
      from fun t => by rw [← hlen]; exact List.drop_left _ _]
    apply List.mem_map_of_mem
    rw [List.mem_filter]
    refine ⟨?_, hrun⟩
    have hmo := List.mem_map_of_mem (fun o => if (findById new o.id).isSome
        then ({ o with state := ServerState.notRunning } : Server) else o) ho
    simpa [hf] using hmo
  · intro o ho hnr hun s hs hsid
    rw [hres] at hs
    rcases List.mem_append.mp hs with hs | hs
    · obtain ⟨n', hn', rfl⟩ := List.mem_map.mp hs
      exact hun n' hn' hsid
    · obtain ⟨x, hx, rfl⟩ := List.mem_map.mp hs
      obtain ⟨hx1, hx2⟩ := List.mem_filter.mp hx
      obtain ⟨o', ho', rfl⟩ := List.mem_map.mp hx1
      have hido : o' = o := by
        refine List.inj_on_of_nodup_map hold ho' ho ?_
        by_cases hfo : (findById new o'.id).isSome <;> simpa [hfo] using hsid
      subst hido
      have hf : findById new o'.id = none := findById_eq_none new o'.id hun
      rw [hf] at hx2
      simp only [Option.isSome_none, Bool.false_eq_true, if_false] at hx2
      rw [Server.isRunning, hnr] at hx2
      cases hx2

/-- Witness for C3: a two-server cluster (one running, one not) reloaded with
a single entry matching the running server under a changed config. -/
theorem load_servers_spec_witness :
    ({ Server.new "a" (testInstance "a" none (some 40000)) with
        state := ServerState.running ⟨"c1", 8081, 37015, 7⟩ } ∈
      ((ServerCluster.mk [testRunningA, Server.new "b" (testInstance "b" none none)]).load_servers
        [Server.new "a" (testInstance "a" none (some 40000))]).1.servers) ∧
    ("a" ∈ ((ServerCluster.mk [testRunningA, Server.new "b" (testInstance "b" none none)]).load_servers
        [Server.new "a" (testInstance "a" none (some 40000))]).2) ∧
    (∀ s ∈ ((ServerCluster.mk [testRunningA, Server.new "b" (testInstance "b" none none)]).load_servers
        [Server.new "a" (testInstance "a" none (some 40000))]).1.servers, s.id ≠ "b") := by
  have h := load_servers_spec
    (ServerCluster.mk [testRunningA, Server.new "b" (testInstance "b" none none)])
    [Server.new "a" (testInstance "a" none (some 40000))]
    (by intro n hn; rcases List.mem_singleton.mp hn with rfl; rfl)
    (by simp [testRunningA, Server.new, testInstance])
    (by simp)
  have ha := h.1 (Server.new "a" (testInstance "a" none (some 40000)))
    (List.mem_singleton.mpr rfl) testRunningA (List.mem_cons_self _ _) rfl
  refine ⟨ha.1, ha.2.mpr (by decide), ?_⟩
  have hb := h.2.2 (Server.new "b" (testInstance "b" none none))
    (List.mem_cons_of_mem _ (List.mem_cons_self _ _)) rfl
    (by intro n hn; rcases List.mem_singleton.mp hn with rfl; decide)
  exact hb

/-! ### ServerCluster::serialize / deserialize -/

/-- server_cluster.rs, `ServerCluster::serialize` over a server list: only
Running servers contribute a record. -/
def serializeList (l : List Server) : List SerializedServer :=
  l.filterMap (fun s => match s.state with
    | .running rs => some ⟨s.id, rs.container_id, rs.auth_port, rs.game_port⟩
    | .notRunning => none)

/-- `ServerCluster::serialize`. -/
def ServerCluster.serialize (c : ServerCluster) : List SerializedServer :=
  serializeList c.servers

/-- Engine behaviour during `deserialize`: for each container id, whether
inspect succeeds and reports `running = true`, and the parsed created time. -/
structure DeserOracle where
  inspectRunning : String → Bool
  created : String → Option ℕ

/-- Update the first server with the given id (`get_mut` followed by an
assignment to `matching_server.state`). -/
def setFirstById (l : List Server) (name : String) (f : Server → Server) : List Server :=
  match l with
  | [] => []
  | s :: rest => if s.id = name then f s :: rest else s :: setFirstById rest name f

/-- The state change one restore record induces on its matching server: only
applied when the engine reports the container running with a created time. -/
def deserApply (o : DeserOracle) (r : SerializedServer) (s : Server) : Server :=
  if o.inspectRunning r.container_id then
    match o.created r.container_id with
    | some t =>
      { s with state := .running ⟨r.container_id, r.auth_port, r.game_port, t⟩ }
    | none => s
  else s

/-- One iteration of the `deserialize` loop: skip when no server matches the
record's name, when inspect fails or reports not running, or when the created
time is missing; otherwise restore the Running state onto the first match. -/
def deserStep (l : List Server) (r : SerializedServer) (o : DeserOracle) : List Server :=
  if (findById l r.name).isSome then
    if o.inspectRunning r.container_id then
      match o.created r.container_id with
      | some t => setFirstById l r.name (fun s =>
          { s with state := .running ⟨r.container_id, r.auth_port, r.game_port, t⟩ })
      | none => l
    else l
  else l

/-- server_cluster.rs, `ServerCluster::deserialize`. -/
def ServerCluster.deserialize (c : ServerCluster) (records : List SerializedServer)
    (o : DeserOracle) : ServerCluster :=
  ⟨records.foldl (fun l r => deserStep l r o) c.servers⟩

/-- The first restore record carrying the given server name. -/
def findRecord : List SerializedServer → String → Option SerializedServer
  | [], _ => none
  | r :: rest, name => if r.name = name then some r else findRecord rest name

/-- The name, container id and game port of every Running server, in cluster
order. -/
def runningTriples (l : List Server) : List (String × String × ℕ) :=
  l.filterMap (fun s => match s.state with
    | .running rs => some (s.id, rs.container_id, rs.game_port)
    | .notRunning => none)

theorem findById_of_split (pre post : List Server) (x : Server) (name : String)
    (hpre : ∀ p ∈ pre, p.id ≠ name) (hx : x.id = name) :
    findById (pre ++ x :: post) name = some x := by
  induction pre with
  | nil => simp [findById, hx]
  | cons p rest ih =>
    simp only [List.cons_append, findById, if_neg (hpre p (List.mem_cons_self _ _))]
    exact ih (fun q hq => hpre q (List.mem_cons_of_mem _ hq))

theorem setFirstById_split (pre post : List Server) (x : Server) (name : String)
    (f : Server → Server) (hpre : ∀ p ∈ pre, p.id ≠ name) (hx : x.id = name) :
    setFirstById (pre ++ x :: post) name f = pre ++ f x :: post := by
  induction pre with
  | nil => simp [setFirstById, hx]
  | cons p rest ih =>
    simp only [List.cons_append, setFirstById, if_neg (hpre p (List.mem_cons_self _ _)),
      List.append_eq]
    rw [ih (fun q hq => hpre q (List.mem_cons_of_mem _ hq))]

theorem deserStep_split (pre post : List Server) (x : Server) (r : SerializedServer)
    (o : DeserOracle) (hpre : ∀ p ∈ pre, p.id ≠ r.name) (hx : x.id = r.name) :
    deserStep (pre ++ x :: post) r o = pre ++ deserApply o r x :: post := by
  unfold deserStep deserApply
  rw [findById_of_split pre post x r.name hpre hx]
  simp only [Option.isSome_some, if_true]
  cases o.inspectRunning r.container_id with
  | false => simp
  | true =>
    simp only [if_true]
    cases o.created r.container_id with
    | none => simp
    | some t => simp [setFirstById_split pre post x r.name _ hpre hx]

theorem deserStep_no_match (l : List Server) (r : SerializedServer) (o : DeserOracle)
    (h : ∀ s ∈ l, s.id ≠ r.name) : deserStep l r o = l := by
  simp [deserStep, findById_eq_none l r.name h]

theorem findRecord_eq_none (records : List SerializedServer) (name : String)
    (h : ∀ r ∈ records, r.name ≠ name) : findRecord records name = none := by
  induction records with
  | nil => rfl
  | cons q qs ihq =>
    simp only [findRecord, if_neg (h q (List.mem_cons_self _ _))]
    exact ihq (fun r hr => h r (List.mem_cons_of_mem _ hr))

/-- Characterization of the deserialize fold with duplicate-free record names
and server ids: every server whose id carries a record receives that record's
state (engine permitting); all other servers are untouched. -/
theorem deserFold_char (records : List SerializedServer) :
    ∀ l : List Server, (records.map SerializedServer.name).Nodup →
    (l.map Server.id).Nodup →
    records.foldl (fun acc r => deserStep acc r o) l =
      l.map (fun s => match findRecord records s.id with
        | some r => deserApply o r s
        | none => s) := by
  induction records with
  | nil =>
    intro l _ _
    simp [findRecord]
  | cons r rs ih =>
    intro l hrn hln
    have hrn' : (SerializedServer.name r :: rs.map SerializedServer.name).Nodup := by
      rw [← List.map_cons]; exact hrn
    have hrn_tail := (List.nodup_cons.mp hrn').2
    have hr_notin : ∀ r' ∈ rs, r'.name ≠ r.name := by
      intro r' hr' he
      exact (List.nodup_cons.mp hrn').1 (he ▸ List.mem_map_of_mem SerializedServer.name hr')
    simp only [List.foldl_cons]
    cases hm : findById l r.name with
    | none =>
      have hno := forall_of_findById_none l r.name hm
      rw [deserStep_no_match l r o hno]
      rw [ih l hrn_tail hln]
      apply List.map_congr_left
      intro s hs
      have : r.name ≠ s.id := fun he => hno s hs he.symm
      simp [findRecord, this]
    | some x =>
      obtain ⟨pre, post, hsplit, hpre, hxid⟩ := findById_some_split l r.name x hm
      subst hsplit
      have hmid : x.id ∉ pre.map Server.id ∧ x.id ∉ post.map Server.id := by
        rw [List.map_append, List.map_cons] at hln
        have h1 := (List.nodup_append.mp hln).2.1
        have h2 := (List.nodup_append.mp hln).2.2
        exact ⟨fun hc => h2 hc (List.mem_cons_self _ _), (List.nodup_cons.mp h1).1⟩
      have hpost_ne : ∀ p ∈ post, p.id ≠ r.name := by
        intro p hp he
        rw [← hxid] at he
        exact hmid.2 (he ▸ List.mem_map_of_mem Server.id hp)
      rw [deserStep_split pre post x r o hpre hxid]
      have hids1 : ((pre ++ deserApply o r x :: post).map Server.id).Nodup := by
        have : (deserApply o r x).id = x.id := by
          unfold deserApply
          cases o.inspectRunning r.container_id <;>
            cases o.created r.container_id <;> simp
        simpa [this] using hln
      rw [ih (pre ++ deserApply o r x :: post) hrn_tail hids1]
      rw [List.map_append, List.map_append, List.map_cons, List.map_cons]
      have hprem : ∀ s ∈ pre, (match findRecord rs s.id with
          | some r' => deserApply o r' s
          | none => s) = (match findRecord (r :: rs) s.id with
          | some r' => deserApply o r' s
          | none => s) := by
        intro s hs
        have : r.name ≠ s.id := fun he => hpre s hs he.symm
        simp [findRecord, this]
      have hpostm : ∀ s ∈ post, (match findRecord rs s.id with
          | some r' => deserApply o r' s
          | none => s) = (match findRecord (r :: rs) s.id with
          | some r' => deserApply o r' s
          | none => s) := by
        intro s hs
        have : r.name ≠ s.id := fun he => hpost_ne s hs he.symm
        simp [findRecord, this]
      rw [List.map_congr_left hprem, List.map_congr_left hpostm]
      have hdid : (deserApply o r x).id = x.id := by
        unfold deserApply
        cases o.inspectRunning r.container_id <;>
          cases o.created r.container_id <;> simp
      have hfr_ns : findRecord rs (deserApply o r x).id = none := by
        rw [hdid, hxid]
        exact findRecord_eq_none rs r.name hr_notin
      have hfr_x : findRecord (r :: rs) x.id = some r := by
        simp [findRecord, hxid.symm]
      simp only [hfr_ns, hfr_x]

theorem serializeList_names_sublist (l : List Server) :
    ((serializeList l).map SerializedServer.name).Sublist (l.map Server.id) := by
  induction l with
  | nil => simp [serializeList]
  | cons s rest ih =>
    cases hs : s.state with
    | notRunning =>
      simp only [serializeList, List.filterMap_cons, hs, List.map_cons]
      exact ih.cons s.id
    | running rs =>
      simp only [serializeList, List.filterMap_cons, hs, List.map_cons]
      exact ih.cons₂ s.id

theorem mem_serializeList (l : List Server) (r : SerializedServer)
    (h : r ∈ serializeList l) :
    ∃ s ∈ l, ∃ rs : RunningServer, s.state = .running rs ∧
      r = ⟨s.id, rs.container_id, rs.auth_port, rs.game_port⟩ := by
  obtain ⟨s, hs, hf⟩ := List.mem_filterMap.mp h
  refine ⟨s, hs, ?_⟩
  cases hst : s.state with
  | notRunning => rw [hst] at hf; cases hf
  | running rs =>
    rw [hst] at hf
    exact ⟨rs, rfl, (Option.some_inj.mp hf).symm⟩

theorem findRecord_serialize_running (l : List Server) (hnd : (l.map Server.id).Nodup)
    (s : Server) (hs : s ∈ l) (rs : RunningServer) (h : s.state = .running rs) :
    findRecord (serializeList l) s.id =
      some ⟨s.id, rs.container_id, rs.auth_port, rs.game_port⟩ := by
  induction l with
  | nil => cases hs
  | cons x rest ih =>
    have hnd' : (Server.id x :: rest.map Server.id).Nodup := by
      rw [← List.map_cons]; exact hnd
    rcases List.mem_cons.mp hs with rfl | hs'
    · simp [serializeList, List.filterMap_cons, h, findRecord]
    · have hne : x.id ≠ s.id := by
        intro he
        exact (List.nodup_cons.mp hnd').1 (he ▸ List.mem_map_of_mem Server.id hs')
      cases hx : x.state with
      | notRunning =>
        simp only [serializeList, List.filterMap_cons, hx]
        exact ih (List.nodup_cons.mp hnd').2 hs'
      | running rsx =>
        simp only [serializeList, List.filterMap_cons, hx, findRecord, if_neg hne]
        exact ih (List.nodup_cons.mp hnd').2 hs'

theorem findRecord_serialize_notRunning (l : List Server)
    (hnd : (l.map Server.id).Nodup) (s : Server) (hs : s ∈ l)
    (h : s.state = .notRunning) : findRecord (serializeList l) s.id = none := by
  apply findRecord_eq_none
  intro r hr he
  obtain ⟨x, hx, rsx, hxst, rfl⟩ := mem_serializeList l r hr
  have : x = s := List.inj_on_of_nodup_map hnd hx hs he
  subst this
  rw [h] at hxst
  cases hxst

/-- The core of the round trip: mapping the record lookup over a fresh target
list whose ids coincide pointwise with the source reproduces the source's
Running triples. -/
theorem triples_map_records (R : List SerializedServer) (o : DeserOracle) :
    ∀ srcl tgtl : List Server,
    tgtl.map Server.id = srcl.map Server.id →
    (∀ s ∈ tgtl, s.state = .notRunning) →
    (∀ s ∈ srcl, ∀ rs : RunningServer, s.state = .running rs →
      findRecord R s.id = some ⟨s.id, rs.container_id, rs.auth_port, rs.game_port⟩ ∧
      o.inspectRunning rs.container_id = true ∧
      ∃ t, o.created rs.container_id = some t) →
    (∀ s ∈ srcl, s.state = .notRunning → findRecord R s.id = none) →
    runningTriples (tgtl.map (fun s => match findRecord R s.id with
      | some r => deserApply o r s
      | none => s)) = runningTriples srcl := by
  intro srcl
  induction srcl with
  | nil =>
    intro tgtl hids _ _ _
    have h0 : tgtl = [] := List.map_eq_nil_iff.mp (show tgtl.map Server.id = [] from hids)
    subst h0
    rfl
  | cons s srest ih =>
    intro tgtl hids htgt h1 h2
    cases tgtl with
    | nil => cases hids
    | cons t trest =>
      simp only [List.map_cons, List.cons.injEq] at hids
      obtain ⟨hid, hidt⟩ := hids
      have htgt_tail : ∀ u ∈ trest, u.state = .notRunning :=
        fun u hu => htgt u (List.mem_cons_of_mem _ hu)
      have h1t : ∀ u ∈ srest, ∀ rs : RunningServer, u.state = .running rs →
          findRecord R u.id = some ⟨u.id, rs.container_id, rs.auth_port, rs.game_port⟩ ∧
          o.inspectRunning rs.container_id = true ∧
          ∃ t, o.created rs.container_id = some t :=
        fun u hu => h1 u (List.mem_cons_of_mem _ hu)
      have h2t : ∀ u ∈ srest, u.state = .notRunning → findRecord R u.id = none :=
        fun u hu => h2 u (List.mem_cons_of_mem _ hu)
      have hrec := ih trest hidt htgt_tail h1t h2t
      cases hst : s.state with
      | running rs =>
        obtain ⟨hfr, hir, t0, hct⟩ := h1 s (List.mem_cons_self _ _) rs hst
        have hfrt : findRecord R t.id = some ⟨s.id, rs.container_id, rs.auth_port,
            rs.game_port⟩ := by rw [hid]; exact hfr
        simp only [List.map_cons, runningTriples, List.filterMap_cons, hfrt, hst,
          deserApply, hir, hct, if_true]
        rw [hid]
        exact congrArg _ hrec
      | notRunning =>
        have hfrt : findRecord R t.id = none := by
          rw [hid]; exact h2 s (List.mem_cons_self _ _) hst
        have htst := htgt t (List.mem_cons_self _ _)
        simp only [List.map_cons, runningTriples, List.filterMap_cons, hfrt, hst, htst]
        exact hrec

/-- Claim C6: serializing a cluster and deserializing the records into a
fresh cluster declaring the same servers, against an engine that still
reports every recorded container as running with a valid created time,
reproduces the same Running servers by name, container id and game port
(NotRunning servers contribute no record and stay NotRunning). -/
theorem serialize_deserialize_roundtrip (src tgt : ServerCluster) (o : DeserOracle)
    (hids : tgt.servers.map Server.id = src.servers.map Server.id)
    (htgt : ∀ s ∈ tgt.servers, s.state = .notRunning)
    (hnd : (src.servers.map Server.id).Nodup)
    (heng : ∀ r ∈ src.serialize, o.inspectRunning r.container_id = true ∧
      ∃ t, o.created r.container_id = some t) :
    runningTriples (tgt.deserialize src.serialize o).servers =
      runningTriples src.servers := by
  have hrn : ((src.serialize).map SerializedServer.name).Nodup :=
    (serializeList_names_sublist src.servers).nodup hnd
  have htnd : (tgt.servers.map Server.id).Nodup := by rw [hids]; exact hnd
  have hfold := deserFold_char (o := o) src.serialize tgt.servers hrn htnd
  show runningTriples (src.serialize.foldl (fun l r => deserStep l r o) tgt.servers) = _
  rw [hfold]
  refine triples_map_records src.serialize o src.servers tgt.servers hids htgt ?_ ?_
  · intro s hs rs hst
    refine ⟨findRecord_serialize_running src.servers hnd s hs rs hst, ?_⟩
    have hmem : (⟨s.id, rs.container_id, rs.auth_port, rs.game_port⟩ :
        SerializedServer) ∈ src.serialize := by
      refine List.mem_filterMap.mpr ⟨s, hs, ?_⟩
      rw [hst]
    exact heng _ hmem
  · exact fun s hs h => findRecord_serialize_notRunning src.servers hnd s hs h

/-- Witness for C6: a two-server cluster with one running server, restored
into a fresh cluster with the same ids against an engine that reports the
container alive. -/
theorem serialize_deserialize_roundtrip_witness :
    runningTriples ((ServerCluster.mk
        [Server.new "a" (testInstance "a" none none),
         Server.new "b" (testInstance "b" none none)]).deserialize
      (ServerCluster.mk
        [testRunningA, Server.new "b" (testInstance "b" none none)]).serialize
      ⟨fun _ => true, fun _ => some 7⟩).servers =
    runningTriples (ServerCluster.mk
        [testRunningA, Server.new "b" (testInstance "b" none none)]).servers := by
  refine serialize_deserialize_roundtrip _ _ _ rfl ?_ ?_ ?_
  · intro s hs
    rcases List.mem_cons.mp hs with rfl | hs
    · rfl
    · rcases List.mem_singleton.mp hs with rfl
      rfl
  · simp [testRunningA, Server.new, testInstance]
  · intro r _
    exact ⟨rfl, 7, rfl⟩

/-! ### Remaining cluster operations (stop_old, stop_all, per-server stop) -/

/-- `ServerCluster::stop_old`, first half: stop every `is_old` server. -/
def stopEachOld (o : ℕ → StopOracle) : ℕ → List Server → List Server
  | _, [] => []
  | i, s :: rest =>
    (if s.is_old then (s.stop (o i)).server else s) :: stopEachOld o (i + 1) rest

/-- server_cluster.rs, `ServerCluster::stop_old`: stop the `is_old` servers,
then retain only the non-old ones. -/
def ServerCluster.stop_old (c : ServerCluster) (o : ℕ → StopOracle) : ServerCluster :=
  ⟨(stopEachOld o 0 c.servers).filter (fun s => !s.is_old)⟩

/-- `ServerCluster::stop_all`, stopping every server in order. -/
def stopEach (o : ℕ → StopOracle) : ℕ → List Server → List Server
  | _, [] => []
  | i, s :: rest => (s.stop (o i)).server :: stopEach o (i + 1) rest

/-- server_cluster.rs, `ServerCluster::stop_all`. -/
def ServerCluster.stop_all (c : ServerCluster) (o : ℕ → StopOracle) : ServerCluster :=
  ⟨stopEach o 0 c.servers⟩

/-- Per-server stop issued by the operator (`get_mut` + `Server::stop`). -/
def ServerCluster.stop_by_name (c : ServerCluster) (name : String) (o : StopOracle) :
    ServerCluster :=
  ⟨setFirstById c.servers name (fun s => (s.stop o).server)⟩

/-! ### ServerCluster::poll -/

/-- Engine and collaborator behaviour for one server during one poll:
whether inspect succeeds and reports running (`alive`); whether the cron
evaluator reports a next restart before the poll instant (`cronDue`); the two
potential `Server::stop` calls (scheduled restart, frozen probe); whether the
container's inspect response carries a parseable IP; whether the TCP probe to
the auth port connects; and the `Server::start` behaviour for Phase C. -/
structure ServerPollOracle where
  alive : Bool
  cronDue : Bool
  cronStop : StopOracle
  hasIp : Bool
  probeOk : Bool
  probeStop : StopOracle
  start : StartOracle

/-- Phase A for one server (the body of `restart_servers_futures`): NotRunning
servers are queued; dead containers are marked NotRunning and queued; a due
cron schedule stops the server (queued if the stop landed); otherwise a failed
TCP probe to the auth port stops the server (queued if the stop landed); a
missing IP skips the probe and leaves the server untouched. -/
def phaseA1 (o : ServerPollOracle) (s : Server) : Server × Bool :=
  match s.state with
  | .notRunning => (s, true)
  | .running _ =>
    if o.alive = false then ({ s with state := .notRunning }, true)
    else
      let s1 := if s.config.game_config.restart_schedule.isSome && o.cronDue
        then (s.stop o.cronStop).server else s
      match s1.state with
      | .notRunning => (s1, true)
      | .running _ =>
        if o.hasIp = false then (s1, false)
        else if o.probeOk then (s1, false)
        else
          let s2 := (s1.stop o.probeStop).server
          match s2.state with
          | .notRunning => (s2, true)
          | .running _ => (s2, false)

/-- Phase A over the whole cluster, in index order. -/
def phaseAList (o : ℕ → ServerPollOracle) : ℕ → List Server → List (Server × Bool)
  | _, [] => []
  | i, s :: rest => phaseA1 (o i) s :: phaseAList o (i + 1) rest

/-- The restart queue: indices flagged by Phase A, in cluster order. -/
def queuedIdx : ℕ → List (Server × Bool) → List ℕ
  | _, [] => []
  | i, p :: rest => if p.2 then i :: queuedIdx (i + 1) rest else queuedIdx (i + 1) rest

/-- The `unzip` of auth and game ports held by Running servers. -/
def portsInUse : List Server → Finset ℕ × Finset ℕ
  | [] => (∅, ∅)
  | s :: rest =>
    let p := portsInUse rest
    match s.state with
    | .running rs => (insert rs.auth_port p.1, insert rs.game_port p.2)
    | .notRunning => p

/-- Scan `lo, lo+1, ...` for `fuel` steps for the first port not in use
(`range.clone().into_iter().find(...)`). -/
def scanFree (lo : ℕ) : ℕ → Finset ℕ → Option ℕ
  | 0, _ => none
  | fuel + 1, used => if lo ∈ used then scanFree (lo + 1) fuel used else some lo

/-- First free port of an inclusive range, scanned from start to end. -/
def PortRange.findFree (r : PortRange) (used : Finset ℕ) : Option ℕ :=
  scanFree r.lo (r.hi + 1 - r.lo) used

/-- Allocation of one port: a pinned port is used iff it is not in the in-use
set; otherwise the pool range is scanned for the first free port. -/
def allocOne (pin : Option ℕ) (range : PortRange) (used : Finset ℕ) : Option ℕ :=
  match pin with
  | some p => if p ∈ used then none else some p
  | none => range.findFree used

/-- server_cluster.rs, `struct RestartServerDetails`. -/
structure RestartServerDetails where
  auth_port : ℕ
  game_port : ℕ
deriving DecidableEq

/-- Which allocation failed for a skipped server (the two `error!` paths of
Phase B). -/
inductive AllocSkip
  | auth
  | game
deriving DecidableEq

/-- Phase B: serial port allocation over the restart queue.  The auth port is
allocated first, then the game port; on success both are inserted into the
in-use sets before the next queued server is considered; on failure the
server is skipped with an error.  Out-of-range indices cannot arise from
`poll` (the queue holds positions of the server list) and are skipped. -/
def allocLoop (cfg : Config) (servers : List Server) :
    List ℕ → Finset ℕ → Finset ℕ →
    List (ℕ × RestartServerDetails) × List (ℕ × AllocSkip)
  | [], _, _ => ([], [])
  | i :: rest, authUsed, gameUsed =>
    match servers[i]? with
    | none => allocLoop cfg servers rest authUsed gameUsed
    | some s =>
      match allocOne s.config.auth_port cfg.auth_ports authUsed with
      | none =>
        let r := allocLoop cfg servers rest authUsed gameUsed
        (r.1, (i, .auth) :: r.2)
      | some a =>
        match allocOne s.config.game_port cfg.game_ports gameUsed with
        | none =>
          let r := allocLoop cfg servers rest authUsed gameUsed
          (r.1, (i, .game) :: r.2)
        | some g =>
          let r := allocLoop cfg servers rest (insert a authUsed) (insert g gameUsed)
          ((i, ⟨a, g⟩) :: r.1, r.2)

/-- `restart_server_details.get(&server_index)`. -/
def lookupIdx (i : ℕ) : List (ℕ × RestartServerDetails) → Option RestartServerDetails
  | [] => none
  | p :: rest => if p.1 = i then some p.2 else lookupIdx i rest

/-- Phase C: start every server the allocation mapped, leaving the others
untouched. -/
def phaseCList (o : ℕ → ServerPollOracle) (details : List (ℕ × RestartServerDetails)) :
    ℕ → List Server → List Server
  | _, [] => []
  | i, s :: rest =>
    (match lookupIdx i details with
     | some d => (s.start d.auth_port d.game_port (o i).start).2
     | none => s) :: phaseCList o details (i + 1) rest

/-- server_cluster.rs, `enum PollStatus`. -/
inductive PollStatus
  | didWork
  | noWork
deriving DecidableEq

/-- The Phase A results of one poll. -/
def pollPhaseA (c : ServerCluster) (o : ℕ → ServerPollOracle) : List (Server × Bool) :=
  phaseAList o 0 c.servers

/-- The server list after Phase A. -/
def pollServers1 (c : ServerCluster) (o : ℕ → ServerPollOracle) : List Server :=
  (pollPhaseA c o).map Prod.fst

/-- The restart queue of one poll. -/
def pollQueue (c : ServerCluster) (o : ℕ → ServerPollOracle) : List ℕ :=
  queuedIdx 0 (pollPhaseA c o)

/-- The Phase B output of one poll. -/
def pollAlloc (cfg : Config) (c : ServerCluster) (o : ℕ → ServerPollOracle) :
    List (ℕ × RestartServerDetails) × List (ℕ × AllocSkip) :=
  allocLoop cfg (pollServers1 c o) (pollQueue c o)
    (portsInUse (pollServers1 c o)).1 (portsInUse (pollServers1 c o)).2

/-- server_cluster.rs, `ServerCluster::poll`: Phase A (liveness, cron and
probe sweep), Phase B (serial port allocation), then `NoWork` when nothing
was mapped, else Phase C (concurrent starts) and `DidWork`. -/
def ServerCluster.poll (c : ServerCluster) (cfg : Config) (o : ℕ → ServerPollOracle) :
    ServerCluster × PollStatus :=
  if (pollAlloc cfg c o).1.isEmpty then (⟨pollServers1 c o⟩, .noWork)
  else (⟨phaseCList o (pollAlloc cfg c o).1 0 (pollServers1 c o)⟩, .didWork)

theorem phaseAList_get? (o : ℕ → ServerPollOracle) (l : List Server) :
    ∀ k j : ℕ, (phaseAList o k l).get? j = (l.get? j).map (fun s => phaseA1 (o (k + j)) s) := by
  induction l with
  | nil => intro k j; cases j <;> rfl
  | cons s rest ih =>
    intro k j
    cases j with
    | zero => rfl
    | succ n =>
      simp only [phaseAList, List.get?_cons_succ]
      rw [ih (k + 1) n]
      have : k + 1 + n = k + (n + 1) := by omega
      rw [this]

theorem mem_queuedIdx (pa : List (Server × Bool)) :
    ∀ k i : ℕ, i ∈ queuedIdx k pa ↔
      ∃ j p, pa.get? j = some p ∧ p.2 = true ∧ i = k + j := by
  induction pa with
  | nil =>
    intro k i
    constructor
    · intro h; cases h
    · rintro ⟨j, p, hj, -, -⟩; cases j <;> cases hj
  | cons p rest ih =>
    intro k i
    simp only [queuedIdx]
    by_cases hp : p.2 = true
    · rw [if_pos hp]
      constructor
      · intro h
        rcases List.mem_cons.mp h with rfl | h
        · exact ⟨0, p, rfl, hp, by omega⟩
        · obtain ⟨j, q, hq, hq2, hi⟩ := (ih (k + 1) i).mp h
          exact ⟨j + 1, q, hq, hq2, by omega⟩
      · rintro ⟨j, q, hq, hq2, rfl⟩
        cases j with
        | zero =>
          exact List.mem_cons_self _ _
        | succ n =>
          refine List.mem_cons_of_mem _ ((ih (k + 1) (k + (n + 1))).mpr
            ⟨n, q, hq, hq2, by omega⟩)
    · rw [if_neg hp]
      constructor
      · intro h
        obtain ⟨j, q, hq, hq2, hi⟩ := (ih (k + 1) i).mp h
        exact ⟨j + 1, q, hq, hq2, by omega⟩
      · rintro ⟨j, q, hq, hq2, rfl⟩
        cases j with
        | zero =>
          rw [List.get?_cons_zero] at hq
          rw [Option.some_inj.mp hq] at hp
          exact absurd hq2 hp
        | succ n =>
          exact (ih (k + 1) (k + (n + 1))).mpr ⟨n, q, hq, hq2, by omega⟩

/-- Claim C10: in Phase A, a Running server that is alive and whose cron
schedule does not trigger gets a TCP probe on its auth port: a failed probe
stops the server (and queues it for restart in the same poll once the stop
lands); a refused stop leaves it Running and unqueued; a missing container IP
skips the probe and leaves the server untouched. -/
theorem poll_probe_spec (c : ServerCluster) (o : ℕ → ServerPollOracle)
    (i : ℕ) (s : Server) (rs : RunningServer)
    (hs : c.servers.get? i = some s) (hst : s.state = .running rs)
    (halive : (o i).alive = true)
    (hcron : s.config.game_config.restart_schedule = none ∨ (o i).cronDue = false) :
    ((o i).hasIp = false → phaseA1 (o i) s = (s, false)) ∧
    ((o i).hasIp = true → (o i).probeOk = true → phaseA1 (o i) s = (s, false)) ∧
    ((o i).hasIp = true → (o i).probeOk = false → (o i).probeStop.accepted = true →
      phaseA1 (o i) s = ({ s with state := .notRunning }, true) ∧ i ∈ pollQueue c o) ∧
    ((o i).hasIp = true → (o i).probeOk = false → (o i).probeStop.accepted = false →
      phaseA1 (o i) s = (s, false)) := by
  have hc : (s.config.game_config.restart_schedule.isSome && (o i).cronDue) = false := by
    rcases hcron with h | h <;> simp [h]
  refine ⟨?_, ?_, ?_, ?_⟩
  · intro hip
    simp [phaseA1, hst, halive, hc, hip]
  · intro hip hpr
    simp [phaseA1, hst, halive, hc, hip, hpr]
  · intro hip hpr hacc
    have hph : phaseA1 (o i) s = ({ s with state := .notRunning }, true) := by
      simp [phaseA1, hst, halive, hc, hip, hpr, Server.stop, hacc]
    refine ⟨hph, ?_⟩
    refine (mem_queuedIdx (pollPhaseA c o) 0 i).mpr
      ⟨i, phaseA1 (o i) s, ?_, ?_, by omega⟩
    · show (phaseAList o 0 c.servers).get? i = _
      rw [phaseAList_get? o c.servers 0 i, hs]
      have : 0 + i = i := by omega
      rw [this]
      rfl
    · rw [hph]
  · intro hip hpr hacc
    simp [phaseA1, hst, halive, hc, hip, hpr, Server.stop, hacc]

/-- Witness for C10: a one-server cluster whose running server is alive but
fails the auth-port probe; the engine accepts the stop and the server is
queued. -/
theorem poll_probe_spec_witness :
    phaseA1 ⟨true, false, ⟨true, 0⟩, true, false, ⟨true, 0⟩,
        ⟨some "c2", true, true, some 9, some "ip", true⟩⟩ testRunningA =
      ({ testRunningA with state := .notRunning }, true) ∧
    0 ∈ pollQueue ⟨[testRunningA]⟩ (fun _ => ⟨true, false, ⟨true, 0⟩, true, false,
        ⟨true, 0⟩, ⟨some "c2", true, true, some 9, some "ip", true⟩⟩) := by
  have h := poll_probe_spec ⟨[testRunningA]⟩
    (fun _ => ⟨true, false, ⟨true, 0⟩, true, false, ⟨true, 0⟩,
      ⟨some "c2", true, true, some 9, some "ip", true⟩⟩)
    0 testRunningA ⟨"c1", 8081, 37015, 7⟩ rfl rfl rfl (Or.inl rfl)
  exact h.2.2.1 rfl rfl rfl

theorem scanFree_some : ∀ (fuel lo : ℕ) (used : Finset ℕ) (g : ℕ),
    scanFree lo fuel used = some g →
    lo ≤ g ∧ g < lo + fuel ∧ g ∉ used ∧ ∀ p, lo ≤ p → p < g → p ∈ used := by
  intro fuel
  induction fuel with
  | zero => intro lo used g h; cases h
  | succ n ih =>
    intro lo used g h
    by_cases hm : lo ∈ used
    · rw [show scanFree lo (n + 1) used = scanFree (lo + 1) n used from by
        simp [scanFree, hm]] at h
      obtain ⟨h1, h2, h3, h4⟩ := ih (lo + 1) used g h
      refine ⟨by omega, by omega, h3, ?_⟩
      intro p hp1 hp2
      rcases Nat.eq_or_lt_of_le hp1 with rfl | hlt
      · exact hm
      · exact h4 p (by omega) hp2
    · rw [show scanFree lo (n + 1) used = some lo from by simp [scanFree, hm]] at h
      obtain rfl := Option.some_inj.mp h.symm
      exact ⟨le_refl _, by omega, hm, fun p hp1 hp2 => absurd (lt_of_le_of_lt hp1 hp2)
        (lt_irrefl _)⟩

theorem scanFree_none : ∀ (fuel lo : ℕ) (used : Finset ℕ),
    scanFree lo fuel used = none → ∀ p, lo ≤ p → p < lo + fuel → p ∈ used := by
  intro fuel
  induction fuel with
  | zero => intro lo used _ p hp1 hp2; omega
  | succ n ih =>
    intro lo used h p hp1 hp2
    by_cases hm : lo ∈ used
    · rw [show scanFree lo (n + 1) used = scanFree (lo + 1) n used from by
        simp [scanFree, hm]] at h
      rcases Nat.eq_or_lt_of_le hp1 with rfl | hlt
      · exact hm
      · exact ih (lo + 1) used h p (by omega) (by omega)
    · rw [show scanFree lo (n + 1) used = some lo from by simp [scanFree, hm]] at h
      cases h

theorem findFree_some (r : PortRange) (used : Finset ℕ) (g : ℕ)
    (h : r.findFree used = some g) :
    r.lo ≤ g ∧ g ≤ r.hi ∧ g ∉ used ∧ ∀ p, r.lo ≤ p → p < g → p ∈ used := by
  obtain ⟨h1, h2, h3, h4⟩ := scanFree_some (r.hi + 1 - r.lo) r.lo used g h
  exact ⟨h1, by omega, h3, h4⟩

theorem findFree_none (r : PortRange) (used : Finset ℕ)
    (h : r.findFree used = none) : ∀ p, r.lo ≤ p → p ≤ r.hi → p ∈ used := by
  intro p hp1 hp2
  exact scanFree_none (r.hi + 1 - r.lo) r.lo used h p hp1 (by omega)

/-- Once a game port is in the in-use set, no later queued server pinning it
ever receives an allocation: the set only grows. -/
theorem alloc_pinned_never (cfg : Config) (servers : List Server) :
    ∀ (queue : List ℕ) (aU gU : Finset ℕ) (j : ℕ) (sj : Server) (p : ℕ),
    servers[j]? = some sj → sj.config.game_port = some p → p ∈ gU →
    ∀ d, (j, d) ∈ (allocLoop cfg servers queue aU gU).1 → False := by
  intro queue
  induction queue with
  | nil => intro aU gU j sj p _ _ _ d hd; cases hd
  | cons i rest ih =>
    intro aU gU j sj p hj hpin hp d hd
    cases hgs : servers[i]? with
    | none =>
      rw [show (allocLoop cfg servers (i :: rest) aU gU) =
        allocLoop cfg servers rest aU gU from by simp [allocLoop, hgs]] at hd
      exact ih aU gU j sj p hj hpin hp d hd
    | some s =>
      cases hauth : allocOne s.config.auth_port cfg.auth_ports aU with
      | none =>
        rw [show (allocLoop cfg servers (i :: rest) aU gU).1 =
          (allocLoop cfg servers rest aU gU).1 from by simp [allocLoop, hgs, hauth]] at hd
        exact ih aU gU j sj p hj hpin hp d hd
      | some a =>
        cases hgame : allocOne s.config.game_port cfg.game_ports gU with
        | none =>
          rw [show (allocLoop cfg servers (i :: rest) aU gU).1 =
            (allocLoop cfg servers rest aU gU).1 from by
              simp [allocLoop, hgs, hauth, hgame]] at hd
          exact ih aU gU j sj p hj hpin hp d hd
        | some g =>
          rw [show (allocLoop cfg servers (i :: rest) aU gU).1 =
            (i, ⟨a, g⟩) :: (allocLoop cfg servers rest (insert a aU)
              (insert g gU)).1 from by simp [allocLoop, hgs, hauth, hgame]] at hd
          rcases List.mem_cons.mp hd with heq | hd
          · have hj_eq : j = i := congrArg Prod.fst heq
            subst hj_eq
            rw [hj] at hgs
            rw [← Option.some_inj.mp hgs] at hgame
            rw [hpin] at hgame
            rw [show allocOne (some p) cfg.game_ports gU = none from by
              simp [allocOne, hp]] at hgame
            cases hgame
          · exact ih (insert a aU) (insert g gU) j sj p hj hpin
              (Finset.mem_insert_of_mem hp) d hd

/-- Claim C2 (amended): Phase B allocates serially over the restart queue in
cluster order.  The auth port is allocated first; when that fails the server
is skipped with an error and its pinned game port is not consumed.  Given a
successful auth allocation, a pinned game port is granted iff it is not in
the in-use set (initially the ports of Running servers, growing with each
grant before the next queued server is considered), an unpinned server gets
the first free port of the inclusive pool scanned from its start, and a
server is skipped with an error when its pin is taken or the pool is
exhausted; of several servers pinning the same port, the earliest queued one
that reaches game allocation gets it and every later one is skipped. -/
theorem alloc_spec (cfg : Config) (servers : List Server) :
    (∀ (used : Finset ℕ) (g : ℕ), cfg.game_ports.findFree used = some g →
      cfg.game_ports.lo ≤ g ∧ g ≤ cfg.game_ports.hi ∧ g ∉ used ∧
        ∀ p, cfg.game_ports.lo ≤ p → p < g → p ∈ used) ∧
    (∀ used : Finset ℕ, cfg.game_ports.findFree used = none →
      ∀ p, cfg.game_ports.lo ≤ p → p ≤ cfg.game_ports.hi → p ∈ used) ∧
    (∀ (i : ℕ) (rest : List ℕ) (aU gU : Finset ℕ) (s : Server),
      servers[i]? = some s →
      (allocOne s.config.auth_port cfg.auth_ports aU = none →
        allocLoop cfg servers (i :: rest) aU gU =
          ((allocLoop cfg servers rest aU gU).1,
           (i, AllocSkip.auth) :: (allocLoop cfg servers rest aU gU).2)) ∧
      (∀ a, allocOne s.config.auth_port cfg.auth_ports aU = some a →
        (∀ p, s.config.game_port = some p → p ∉ gU →
          allocLoop cfg servers (i :: rest) aU gU =
            ((i, ⟨a, p⟩) :: (allocLoop cfg servers rest (insert a aU) (insert p gU)).1,
             (allocLoop cfg servers rest (insert a aU) (insert p gU)).2)) ∧
        (∀ p, s.config.game_port = some p → p ∈ gU →
          allocLoop cfg servers (i :: rest) aU gU =
            ((allocLoop cfg servers rest aU gU).1,
             (i, AllocSkip.game) :: (allocLoop cfg servers rest aU gU).2)) ∧
        (s.config.game_port = none → ∀ g, cfg.game_ports.findFree gU = some g →
          allocLoop cfg servers (i :: rest) aU gU =
            ((i, ⟨a, g⟩) :: (allocLoop cfg servers rest (insert a aU) (insert g gU)).1,
             (allocLoop cfg servers rest (insert a aU) (insert g gU)).2)) ∧
        (s.config.game_port = none → cfg.game_ports.findFree gU = none →
          allocLoop cfg servers (i :: rest) aU gU =
            ((allocLoop cfg servers rest aU gU).1,
             (i, AllocSkip.game) :: (allocLoop cfg servers rest aU gU).2)))) ∧
    (∀ (i : ℕ) (rest : List ℕ) (aU gU : Finset ℕ) (s : Server) (a p : ℕ),
      servers[i]? = some s → s.config.game_port = some p →
      allocOne s.config.auth_port cfg.auth_ports aU = some a → p ∉ gU →
      ∀ (j : ℕ) (sj : Server) (dj : RestartServerDetails),
        servers[j]? = some sj → sj.config.game_port = some p →
        (j, dj) ∈ (allocLoop cfg servers (i :: rest) aU gU).1 →
        j = i ∧ dj = ⟨a, p⟩) := by
  refine ⟨fun used g h => findFree_some cfg.game_ports used g h,
    fun used h => findFree_none cfg.game_ports used h, ?_, ?_⟩
  · intro i rest aU gU s hgs
    refine ⟨?_, ?_⟩
    · intro hauth
      simp [allocLoop, hgs, hauth]
    · intro a hauth
      refine ⟨?_, ?_, ?_, ?_⟩
      · intro p hpin hp
        have hgame : allocOne s.config.game_port cfg.game_ports gU = some p := by
          simp [allocOne, hpin, hp]
        simp [allocLoop, hgs, hauth, hgame]
      · intro p hpin hp
        have hgame : allocOne s.config.game_port cfg.game_ports gU = none := by
          simp [allocOne, hpin, hp]
        simp [allocLoop, hgs, hauth, hgame]
      · intro hpin g hg
        have hgame : allocOne s.config.game_port cfg.game_ports gU = some g := by
          simp [allocOne, hpin, hg]
        simp [allocLoop, hgs, hauth, hgame]
      · intro hpin hg
        have hgame : allocOne s.config.game_port cfg.game_ports gU = none := by
          simp [allocOne, hpin, hg]
        simp [allocLoop, hgs, hauth, hgame]
  · intro i rest aU gU s a p hgs hpin hauth hp j sj dj hgj hpinj hd
    have hgame : allocOne s.config.game_port cfg.game_ports gU = some p := by
      simp [allocOne, hpin, hp]
    rw [show (allocLoop cfg servers (i :: rest) aU gU).1 =
      (i, ⟨a, p⟩) :: (allocLoop cfg servers rest (insert a aU) (insert p gU)).1 from by
        simp [allocLoop, hgs, hauth, hgame]] at hd
    rcases List.mem_cons.mp hd with heq | hd
    · exact ⟨congrArg Prod.fst heq, congrArg Prod.snd heq⟩
    · exact absurd hd (fun hd => alloc_pinned_never cfg servers rest (insert a aU)
        (insert p gU) j sj p hgj hpinj (Finset.mem_insert_self _ _) dj hd)

/-- Poll configuration used by concrete test scenarios. -/
def testCfg : Config := ⟨⟨8081, 8090⟩, ⟨37015, 37020⟩⟩

/-- A NotRunning server pinning auth port 8081 and game port 40000. -/
def testPinB : Server := Server.new "b" (testInstance "b" (some 8081) (some 40000))

/-- A poll oracle for a healthy engine: every inspect reports running, no cron
restarts are due, probes connect, and starts succeed. -/
def healthyOracle : ℕ → ServerPollOracle := fun _ =>
  ⟨true, false, ⟨true, 0⟩, true, true, ⟨true, 0⟩,
    ⟨some "c9", true, true, some 9, some "ip", true⟩⟩

/-- Witness for C2: the step equations applied at two concrete queues — an
auth-pin collision skipping the server, and a fully free allocation granting
the first pool ports. -/
theorem alloc_spec_witness :
    allocLoop testCfg [testRunningA, testPinB] [1] {8081} {37015} =
      ([], [(1, AllocSkip.auth)]) ∧
    allocLoop testCfg [Server.new "b" (testInstance "b" none none)] [0] ∅ ∅ =
      ([(0, ⟨8081, 37015⟩)], []) := by
  have h := alloc_spec testCfg [testRunningA, testPinB]
  have h1 := ((h.2.2.1 1 [] {8081} {37015} testPinB rfl).1 (by decide))
  have h' := alloc_spec testCfg [Server.new "b" (testInstance "b" none none)]
  have h2 := ((h'.2.2.1 0 [] ∅ ∅ (Server.new "b" (testInstance "b" none none))
    rfl).2 8081 (by decide)).2.2.1 rfl 37015 (by decide)
  constructor
  · rw [h1]; rfl
  · rw [h2]; rfl

/-- Counterexample to C2 as stated: server 1 pins game port 40000, which is
neither held by any Running server nor allocated earlier in the poll, yet it
receives nothing — its auth-port allocation (performed first) fails because
auth port 8081 is held by the running server 0. -/
theorem alloc_pinned_iff_cex :
    testPinB.config.game_port = some 40000 ∧
    (40000 ∉ (portsInUse (pollServers1 ⟨[testRunningA, testPinB]⟩ healthyOracle)).2) ∧
    pollQueue ⟨[testRunningA, testPinB]⟩ healthyOracle = [1] ∧
    pollAlloc testCfg ⟨[testRunningA, testPinB]⟩ healthyOracle =
      ([], [(1, AllocSkip.auth)]) := by
  refine ⟨rfl, by decide, rfl, ?_⟩
  rfl

theorem phaseCList_get? (o : ℕ → ServerPollOracle)
    (details : List (ℕ × RestartServerDetails)) (l : List Server) :
    ∀ k j : ℕ, (phaseCList o details k l).get? j = (l.get? j).map (fun s =>
      match lookupIdx (k + j) details with
      | some d => (s.start d.auth_port d.game_port (o (k + j)).start).2
      | none => s) := by
  induction l with
  | nil => intro k j; cases j <;> rfl
  | cons s rest ih =>
    intro k j
    cases j with
    | zero => rfl
    | succ n =>
      simp only [phaseCList, List.get?_cons_succ]
      rw [ih (k + 1) n]
      have : k + 1 + n = k + (n + 1) := by omega
      rw [this]

theorem lookupIdx_isEmpty (i : ℕ) (l : List (ℕ × RestartServerDetails))
    (d : RestartServerDetails) (h : lookupIdx i l = some d) : l.isEmpty = false := by
  cases l with
  | nil => cases h
  | cons p rest => rfl

/-- A `Server::start` oracle on which every step succeeds. -/
def startSucceeds (so : StartOracle) : Bool :=
  so.createRes.isSome && so.startOk && so.inspectOk && so.created.isSome &&
    so.ip.isSome && so.waitConnected

theorem start_success_state (s : Server) (a g : ℕ) (so : StartOracle)
    (h : startSucceeds so = true) :
    ∃ cid t, so.createRes = some cid ∧ so.created = some t ∧
      (s.start a g so).2 = { s with state := .running ⟨cid, a, g, t⟩ } := by
  obtain ⟨cr, sok, iok, cd, ip, wc⟩ := so
  cases cr <;> cases sok <;> cases iok <;> cases cd <;> cases ip <;> cases wc <;>
    simp [startSucceeds] at h <;> exact ⟨_, _, rfl, rfl, rfl⟩

/-- Claim C4 is false on the code; this is the statement that actually holds:
a server whose container is detected dead in Phase A is marked NotRunning and
queued for restart, and when Phase B maps it to ports and the engine accepts
the start, it is Running again at the end of that same poll invocation. -/
theorem poll_dead_restart (c : ServerCluster) (cfg : Config) (o : ℕ → ServerPollOracle)
    (i : ℕ) (s : Server) (rs : RunningServer)
    (hs : c.servers.get? i = some s) (hst : s.state = .running rs)
    (halive : (o i).alive = false) :
    phaseA1 (o i) s = ({ s with state := .notRunning }, true) ∧
    i ∈ pollQueue c o ∧
    (∀ d, lookupIdx i (pollAlloc cfg c o).1 = some d →
      startSucceeds (o i).start = true →
      ∃ cid t, (c.poll cfg o).1.servers.get? i =
        some { s with state := .running ⟨cid, d.auth_port, d.game_port, t⟩ }) := by
  have hph : phaseA1 (o i) s = ({ s with state := .notRunning }, true) := by
    simp [phaseA1, hst, halive]
  refine ⟨hph, ?_, ?_⟩
  · refine (mem_queuedIdx (pollPhaseA c o) 0 i).mpr
      ⟨i, phaseA1 (o i) s, ?_, by rw [hph], by omega⟩
    show (phaseAList o 0 c.servers).get? i = _
    rw [phaseAList_get? o c.servers 0 i, hs]
    have h0 : 0 + i = i := by omega
    rw [h0]
    rfl
  · intro d hd hsucc
    have hne : (pollAlloc cfg c o).1.isEmpty = false := lookupIdx_isEmpty i _ d hd
    have hpoll : (c.poll cfg o).1.servers =
        phaseCList o (pollAlloc cfg c o).1 0 (pollServers1 c o) := by
      simp only [ServerCluster.poll, hne, Bool.false_eq_true, if_false]
    obtain ⟨cid, t, hcid, ht, hstart⟩ := start_success_state
      { s with state := .notRunning } d.auth_port d.game_port (o i).start hsucc
    rw [hpoll, phaseCList_get? o (pollAlloc cfg c o).1 (pollServers1 c o) 0 i]
    have hs1 : (pollServers1 c o).get? i = some ({ s with state := .notRunning }) := by
      show ((phaseAList o 0 c.servers).map Prod.fst).get? i = _
      rw [List.get?_map, phaseAList_get? o c.servers 0 i, hs]
      have h0 : 0 + i = i := by omega
      rw [h0]
      simp [hph]
    rw [hs1]
    have h0 : 0 + i = i := by omega
    rw [h0]
    refine ⟨cid, t, ?_⟩
    simp only [hd, Option.map_some', hstart]

/-- The poll oracle of an engine whose inspect reports every container dead
while accepting creates and starts. -/
def deadOracle : ℕ → ServerPollOracle := fun _ =>
  ⟨false, false, ⟨true, 0⟩, true, true, ⟨true, 0⟩,
    ⟨some "c2", true, true, some 9, some "ip", true⟩⟩

/-- Counterexample to C4 as stated: the running server is detected dead in
Phase A of this concrete poll and is nevertheless started again within the
same poll invocation, ending Running in a fresh container. -/
theorem poll_dead_restart_cex :
    phaseA1 (deadOracle 0) testRunningA =
      ({ testRunningA with state := .notRunning }, true) ∧
    ((⟨[testRunningA]⟩ : ServerCluster).poll testCfg deadOracle).1.servers =
      [{ testRunningA with state := .running ⟨"c2", 8081, 37015, 9⟩ }] ∧
    ((⟨[testRunningA]⟩ : ServerCluster).poll testCfg deadOracle).2 = .didWork := by
  refine ⟨rfl, ?_, ?_⟩ <;> rfl

/-- Witness for the amended C4 theorem at the same concrete poll. -/
theorem poll_dead_restart_witness :
    (0 ∈ pollQueue ⟨[testRunningA]⟩ deadOracle) ∧
    (∃ cid t, ((⟨[testRunningA]⟩ : ServerCluster).poll testCfg deadOracle).1.servers.get? 0 =
      some { testRunningA with state := .running ⟨cid, 8081, 37015, t⟩ }) := by
  have h := poll_dead_restart ⟨[testRunningA]⟩ testCfg deadOracle 0 testRunningA
    ⟨"c1", 8081, 37015, 7⟩ rfl rfl rfl
  refine ⟨h.2.1, ?_⟩
  exact h.2.2 ⟨8081, 37015⟩ rfl rfl

/-! ### Operation sequences over a cluster (claim C1) -/

/-- The cluster operations the supervisor can issue.  `load` carries the
declared servers of a (re)loaded config, which the caller materialises with
`Server::new` (fresh NotRunning entries); every engine-facing operation
carries the oracle of that single invocation. -/
inductive Op where
  | load (new : List (String × FilledInstanceConfig))
  | poll (o : ℕ → ServerPollOracle)
  | stopOld (o : ℕ → StopOracle)
  | stopAll (o : ℕ → StopOracle)
  | stopServer (name : String) (o : StopOracle)
  | deser (records : List SerializedServer) (o : DeserOracle)

/-- One supervisor step. -/
def step (cfg : Config) (c : ServerCluster) : Op → ServerCluster
  | .load new => (c.load_servers (new.map (fun p => Server.new p.1 p.2))).1
  | .poll o => (c.poll cfg o).1
  | .stopOld o => c.stop_old o
  | .stopAll o => c.stop_all o
  | .stopServer name o => c.stop_by_name name o
  | .deser records o => c.deserialize records o

/-- A sequence of supervisor steps. -/
def run (cfg : Config) : ServerCluster → List Op → ServerCluster
  | c, [] => c
  | c, op :: ops => run cfg (step cfg c op) ops

/-- Side conditions of the amended claim C1: the engine never crashes a
container (every poll inspect reports running); reloads do not change the
pinned game port of a server that is currently Running; and no restore-file
deserialization occurs (deserialize can inject arbitrary recorded ports). -/
def OpOk (c : ServerCluster) : Op → Prop
  | .load new => ∀ s ∈ c.servers, ∀ rs : RunningServer, s.state = .running rs →
      ∀ p ∈ new, p.1 = s.id → p.2.game_port = s.config.game_port
  | .poll o => ∀ i, (o i).alive = true
  | .stopOld _ => True
  | .stopAll _ => True
  | .stopServer _ _ => True
  | .deser _ _ => False

/-- The side conditions hold along the whole trace. -/
def OkTrace (cfg : Config) : ServerCluster → List Op → Prop
  | _, [] => True
  | c, op :: ops => OpOk c op ∧ OkTrace cfg (step cfg c op) ops

/-- The `game_port` of every Running server, in cluster order. -/
def runningGamePorts (l : List Server) : List ℕ :=
  l.filterMap (fun s => match s.state with
    | .running rs => some rs.game_port
    | .notRunning => none)

/-- The claimed invariant over a server list: Running game ports are pairwise
distinct, and each one is either the server's pinned value or inside the
configured pool range. -/
def GoodList (cfg : Config) (l : List Server) : Prop :=
  (runningGamePorts l).Nodup ∧
  ∀ s ∈ l, ∀ rs : RunningServer, s.state = .running rs →
    s.config.game_port = some rs.game_port ∨
    (cfg.game_ports.lo ≤ rs.game_port ∧ rs.game_port ≤ cfg.game_ports.hi)

/-- The claimed invariant over a cluster. -/
def GoodCluster (cfg : Config) (c : ServerCluster) : Prop :=
  GoodList cfg c.servers

/-- A per-server effect of `Server::stop` and of Phase A: the server is either
untouched or exactly its state is cleared. -/
def KillStep (s s' : Server) : Prop :=
  s' = s ∨ s' = { s with state := .notRunning }

theorem stop_killStep (s : Server) (o : StopOracle) : KillStep s ((s.stop o).server) := by
  unfold Server.stop
  cases hst : s.state with
  | notRunning => exact Or.inr rfl
  | running rs =>
    by_cases ha : o.accepted <;> simp [ha, KillStep]

theorem killStep_rgp_sublist : ∀ l l' : List Server, List.Forall₂ KillStep l l' →
    (runningGamePorts l').Sublist (runningGamePorts l) := by
  intro l l' h
  induction h with
  | nil => exact List.Sublist.refl _
  | cons hk hrest ih =>
    rename_i a b tl tl'
    rcases hk with hb | hb
    · rw [hb]
      cases hst : a.state with
      | notRunning => simpa [runningGamePorts, hst] using ih
      | running rs =>
        simp only [runningGamePorts, List.filterMap_cons, hst]
        exact ih.cons₂ _
    · rw [hb]
      cases hst : a.state with
      | notRunning => simpa [runningGamePorts, hst] using ih
      | running rs =>
        simp only [runningGamePorts, List.filterMap_cons, hst]
        exact ih.cons _

theorem killStep_member : ∀ l l' : List Server, List.Forall₂ KillStep l l' →
    ∀ s' ∈ l', ∀ rs : RunningServer, s'.state = .running rs →
    ∃ s ∈ l, s.state = .running rs ∧ s.config = s'.config := by
  intro l l' h
  induction h with
  | nil => intro s' hs'; cases hs'
  | cons hk hrest ih =>
    rename_i a b tl tl'
    intro s' hs' rs hrun
    rcases List.mem_cons.mp hs' with rfl | hs'
    · rcases hk with hb | hb
      · rw [hb] at hrun ⊢
        exact ⟨a, List.mem_cons_self _ _, hrun, rfl⟩
      · rw [hb] at hrun
        cases hrun
    · obtain ⟨x, hx, hxs, hxc⟩ := ih s' hs' rs hrun
      exact ⟨x, List.mem_cons_of_mem _ hx, hxs, hxc⟩

/-- Any per-server kill-or-keep pass preserves the invariant. -/
theorem killStep_preserves (cfg : Config) (l l' : List Server)
    (h : List.Forall₂ KillStep l l') (hg : GoodList cfg l) : GoodList cfg l' := by
  refine ⟨(killStep_rgp_sublist l l' h).nodup hg.1, ?_⟩
  intro s' hs' rs hrun
  obtain ⟨s, hs, hsr, hsc⟩ := killStep_member l l' h s' hs' rs hrun
  rw [← hsc]
  exact hg.2 s hs rs hsr

theorem sublist_preserves (cfg : Config) (l l' : List Server)
    (h : l'.Sublist l) (hg : GoodList cfg l) : GoodList cfg l' := by
  refine ⟨(h.filterMap _).nodup hg.1, ?_⟩
  intro s' hs' rs hrun
  exact hg.2 s' (h.mem hs') rs hrun

theorem stopEach_killStep (o : ℕ → StopOracle) :
    ∀ (l : List Server) (k : ℕ), List.Forall₂ KillStep l (stopEach o k l) := by
  intro l
  induction l with
  | nil => intro k; exact List.Forall₂.nil
  | cons s rest ih =>
    intro k
    exact List.Forall₂.cons (stop_killStep s (o k)) (ih (k + 1))

theorem stopEachOld_killStep (o : ℕ → StopOracle) :
    ∀ (l : List Server) (k : ℕ), List.Forall₂ KillStep l (stopEachOld o k l) := by
  intro l
  induction l with
  | nil => intro k; exact List.Forall₂.nil
  | cons s rest ih =>
    intro k
    refine List.Forall₂.cons ?_ (ih (k + 1))
    by_cases h : s.is_old
    · simpa [stopEachOld, h] using stop_killStep s (o k)
    · simp [stopEachOld, h, KillStep]

theorem setFirstById_killStep (name : String) (o : StopOracle) :
    ∀ l : List Server,
      List.Forall₂ KillStep l (setFirstById l name (fun s => (s.stop o).server)) := by
  intro l
  induction l with
  | nil => exact List.Forall₂.nil
  | cons s rest ih =>
    by_cases h : s.id = name
    · simp only [setFirstById, if_pos h]
      exact List.Forall₂.cons (stop_killStep s o)
        (List.forall₂_same.mpr (fun x _ => Or.inl rfl))
    · simp only [setFirstById, if_neg h]
      exact List.Forall₂.cons (Or.inl rfl) ih

theorem stop_all_preserves (cfg : Config) (c : ServerCluster) (o : ℕ → StopOracle)
    (hg : GoodCluster cfg c) : GoodCluster cfg (c.stop_all o) :=
  killStep_preserves cfg c.servers _ (stopEach_killStep o c.servers 0) hg

theorem stop_old_preserves (cfg : Config) (c : ServerCluster) (o : ℕ → StopOracle)
    (hg : GoodCluster cfg c) : GoodCluster cfg (c.stop_old o) := by
  refine sublist_preserves cfg (stopEachOld o 0 c.servers) _ (List.filter_sublist _) ?_
  exact killStep_preserves cfg c.servers _ (stopEachOld_killStep o c.servers 0) hg

theorem stop_by_name_preserves (cfg : Config) (c : ServerCluster) (name : String)
    (o : StopOracle) (hg : GoodCluster cfg c) : GoodCluster cfg (c.stop_by_name name o) :=
  killStep_preserves cfg c.servers _ (setFirstById_killStep name o c.servers) hg

/-! ### Load preservation -/

theorem loadOne_states_perm (old : List Server) (n : Server) :
    ((loadOne old n).1.map Server.state ++ [(loadOne old n).2.1.state]).Perm
      (old.map Server.state ++ [n.state]) := by
  induction old with
  | nil => exact List.Perm.refl _
  | cons o rest ih =>
    by_cases h : o.id = n.id
    · simp only [loadOne, if_pos h, List.map_cons, List.cons_append]
      exact (List.Perm.cons _ (List.perm_append_singleton _ _)).trans
        ((List.Perm.swap _ _ _).trans
          (List.Perm.cons _ (List.perm_append_singleton _ _).symm))
    · simp only [loadOne, if_neg h, List.map_cons, List.cons_append]
      exact List.Perm.cons _ ih

theorem loadLoop_states_perm (new : List Server) : ∀ old : List Server,
    ((loadLoop old new).1.map Server.state ++
      (loadLoop old new).2.1.map Server.state).Perm
      (old.map Server.state ++ new.map Server.state) := by
  induction new with
  | nil => intro old; simp [loadLoop]
  | cons n ns ih =>
    intro old
    simp only [loadLoop, List.map_cons]
    refine List.perm_middle.trans ?_
    refine (List.Perm.cons _ (ih (loadOne old n).1)).trans ?_
    refine (show ((loadOne old n).2.1.state :: ((loadOne old n).1.map Server.state ++
        ns.map Server.state)).Perm
        (((loadOne old n).1.map Server.state ++ [(loadOne old n).2.1.state]) ++
          ns.map Server.state) from
      List.Perm.append_right _ (List.perm_append_singleton _ _).symm).trans ?_
    refine (List.Perm.append_right _ (loadOne_states_perm old n)).trans ?_
    rw [List.append_assoc]
    exact List.Perm.refl _

/-- The game port contributed by one server state. -/
def statePort (st : ServerState) : Option ℕ :=
  match st with
  | .running rs => some rs.game_port
  | .notRunning => none

theorem rgp_eq_states (l : List Server) :
    runningGamePorts l = (l.map Server.state).filterMap statePort := by
  rw [List.filterMap_map]
  rfl

theorem rgp_append (a b : List Server) :
    runningGamePorts (a ++ b) = runningGamePorts a ++ runningGamePorts b :=
  List.filterMap_append _ _ _

theorem rgp_mark (l : List Server) :
    runningGamePorts (l.map (fun s => { s with is_old := true })) = runningGamePorts l := by
  unfold runningGamePorts
  rw [List.filterMap_map]
  rfl

theorem rgp_filter_running (l : List Server) :
    runningGamePorts (l.filter (fun s => s.isRunning)) = runningGamePorts l := by
  induction l with
  | nil => rfl
  | cons s rest ih =>
    cases hst : s.state with
    | notRunning =>
      have : s.isRunning = false := by simp [Server.isRunning, hst]
      simp only [List.filter_cons, this, Bool.false_eq_true, if_false, runningGamePorts,
        List.filterMap_cons, hst]
      exact ih
    | running rs =>
      have : s.isRunning = true := by simp [Server.isRunning, hst]
      simp only [List.filter_cons, this, if_true, runningGamePorts,
        List.filterMap_cons, hst]
      rw [show List.filterMap (fun s => match s.state with
        | ServerState.running rs => some rs.game_port
        | ServerState.notRunning => none) (List.filter (fun s => s.isRunning) rest) =
          runningGamePorts (rest.filter (fun s => s.isRunning)) from rfl, ih]
      rfl

/-- Pointwise relation between the old server list and its post-reload
remnant: only states change, and only to NotRunning. -/
def OldRel (o o' : Server) : Prop :=
  o'.id = o.id ∧ o'.config = o.config ∧ (o'.state = o.state ∨ o'.state = .notRunning)

theorem loadOne_old_rel (old : List Server) (n : Server) (hn : n.state = .notRunning) :
    List.Forall₂ OldRel old (loadOne old n).1 := by
  induction old with
  | nil => exact List.Forall₂.nil
  | cons o rest ih =>
    by_cases h : o.id = n.id
    · simp only [loadOne, if_pos h]
      exact List.Forall₂.cons ⟨rfl, rfl, Or.inr hn⟩
        (List.forall₂_same.mpr (fun x _ => ⟨rfl, rfl, Or.inl rfl⟩))
    · simp only [loadOne, if_neg h]
      exact List.Forall₂.cons ⟨rfl, rfl, Or.inl rfl⟩ ih

theorem oldRel_trans : ∀ {a b c : List Server},
    List.Forall₂ OldRel a b → List.Forall₂ OldRel b c → List.Forall₂ OldRel a c := by
  intro a b c hab
  induction hab generalizing c with
  | nil =>
    intro hbc
    cases hbc
    exact List.Forall₂.nil
  | cons hr hrest ih =>
    intro hbc
    cases hbc with
    | cons hr' hrest' =>
      refine List.Forall₂.cons ?_ (ih hrest')
      obtain ⟨h1, h2, h3⟩ := hr
      obtain ⟨h1', h2', h3'⟩ := hr'
      refine ⟨h1'.trans h1, h2'.trans h2, ?_⟩
      rcases h3' with h3' | h3'
      · rcases h3 with h3 | h3
        · exact Or.inl (h3'.trans h3)
        · exact Or.inr (h3'.trans h3)
      · exact Or.inr h3'

theorem loadLoop_old_rel (new : List Server) : ∀ old : List Server,
    (∀ n ∈ new, n.state = .notRunning) →
    List.Forall₂ OldRel old (loadLoop old new).1 := by
  induction new with
  | nil =>
    intro old _
    exact List.forall₂_same.mpr (fun x _ => ⟨rfl, rfl, Or.inl rfl⟩)
  | cons n ns ih =>
    intro old hnew
    exact oldRel_trans (loadOne_old_rel old n (hnew n (List.mem_cons_self _ _)))
      (ih (loadOne old n).1 (fun x hx => hnew x (List.mem_cons_of_mem _ hx)))

theorem forall₂_mem_right {R : Server → Server → Prop} :
    ∀ {l l' : List Server}, List.Forall₂ R l l' → ∀ x ∈ l', ∃ y ∈ l, R y x := by
  intro l l' h
  induction h with
  | nil => intro x hx; cases hx
  | cons hr hrest ih =>
    intro x hx
    rcases List.mem_cons.mp hx with rfl | hx
    · exact ⟨_, List.mem_cons_self _ _, hr⟩
    · obtain ⟨y, hy, hyr⟩ := ih x hx
      exact ⟨y, List.mem_cons_of_mem _ hy, hyr⟩

theorem loadOne_new_char (old : List Server) (n : Server) :
    ∃ st, (loadOne old n).2.1 = { n with state := st } ∧
      (st = n.state ∨ ∃ o ∈ old, o.id = n.id ∧ o.state = st) := by
  induction old with
  | nil => exact ⟨n.state, rfl, Or.inl rfl⟩
  | cons o rest ih =>
    by_cases h : o.id = n.id
    · exact ⟨o.state, by simp [loadOne, h], Or.inr ⟨o, List.mem_cons_self _ _, h, rfl⟩⟩
    · obtain ⟨st, heq, hd⟩ := ih
      refine ⟨st, by simp only [loadOne, if_neg h]; exact heq, ?_⟩
      rcases hd with hd | ⟨o', ho', h1, h2⟩
      · exact Or.inl hd
      · exact Or.inr ⟨o', List.mem_cons_of_mem _ ho', h1, h2⟩

theorem loadLoop_new_mem (new : List Server) : ∀ old : List Server,
    (∀ n ∈ new, n.state = .notRunning) →
    ∀ n' ∈ (loadLoop old new).2.1, ∃ n ∈ new, n'.id = n.id ∧ n'.config = n.config ∧
      (n'.state = .notRunning ∨ ∃ o ∈ old, o.id = n.id ∧ o.state = n'.state) := by
  induction new with
  | nil => intro old _ n' hn'; cases hn'
  | cons n ns ih =>
    intro old hnew n' hn'
    rcases List.mem_cons.mp hn' with rfl | hn'
    · obtain ⟨st, heq, hd⟩ := loadOne_new_char old n
      refine ⟨n, List.mem_cons_self _ _, by rw [heq], by rw [heq], ?_⟩
      rcases hd with hd | ⟨o, ho, h1, h2⟩
      · exact Or.inl (by rw [heq]; exact hd.trans (hnew n (List.mem_cons_self _ _)))
      · exact Or.inr ⟨o, ho, h1, by rw [heq]; exact h2⟩
    · obtain ⟨m, hm, h1, h2, h3⟩ := ih (loadOne old n).1
        (fun x hx => hnew x (List.mem_cons_of_mem _ hx)) n' hn'
      refine ⟨m, List.mem_cons_of_mem _ hm, h1, h2, ?_⟩
      rcases h3 with h3 | ⟨o, ho, ho1, ho2⟩
      · exact Or.inl h3
      · obtain ⟨o₀, ho₀, hrel⟩ := forall₂_mem_right
          (loadOne_old_rel old n (hnew n (List.mem_cons_self _ _))) o ho
        obtain ⟨hid, hcfg, hstd⟩ := hrel
        rcases hstd with hst | hst
        · exact Or.inr ⟨o₀, ho₀, hid.symm ▸ ho1, hst.symm ▸ ho2⟩
        · exact Or.inl (by rw [← ho2, hst])

theorem rgp_new_nil (newPairs : List (String × FilledInstanceConfig)) :
    runningGamePorts (newPairs.map (fun p => Server.new p.1 p.2)) = [] := by
  induction newPairs with
  | nil => rfl
  | cons p rest ih =>
    simp only [List.map_cons, runningGamePorts, List.filterMap_cons, Server.new]
    exact ih

theorem load_preserves (cfg : Config) (c : ServerCluster)
    (newPairs : List (String × FilledInstanceConfig))
    (hok : ∀ s ∈ c.servers, ∀ rs : RunningServer, s.state = .running rs →
      ∀ p ∈ newPairs, p.1 = s.id → p.2.game_port = s.config.game_port)
    (hg : GoodCluster cfg c) :
    GoodCluster cfg (c.load_servers (newPairs.map (fun p => Server.new p.1 p.2))).1 := by
  have hnew : ∀ n ∈ newPairs.map (fun p => Server.new p.1 p.2), n.state = .notRunning := by
    intro n hn
    obtain ⟨p, _, rfl⟩ := List.mem_map.mp hn
    rfl
  set newList := newPairs.map (fun p => Server.new p.1 p.2) with hnewList
  have hres : (c.load_servers newList).1.servers =
      (loadLoop c.servers newList).2.1 ++
      ((loadLoop c.servers newList).1.filter (fun s => s.isRunning)).map
        (fun s => { s with is_old := true }) := rfl
  constructor
  · -- distinct game ports, via the states permutation
    rw [hres, rgp_append, rgp_mark, rgp_filter_running]
    have hperm : (runningGamePorts (loadLoop c.servers newList).2.1 ++
        runningGamePorts (loadLoop c.servers newList).1).Perm
        (runningGamePorts c.servers) := by
      refine List.perm_append_comm.trans ?_
      rw [show runningGamePorts (loadLoop c.servers newList).1 ++
          runningGamePorts (loadLoop c.servers newList).2.1 =
          (((loadLoop c.servers newList).1.map Server.state) ++
            ((loadLoop c.servers newList).2.1.map Server.state)).filterMap statePort from by
        rw [List.filterMap_append, ← rgp_eq_states, ← rgp_eq_states]]
      refine ((loadLoop_states_perm newList c.servers).filterMap statePort).trans ?_
      rw [List.filterMap_append, ← rgp_eq_states, ← rgp_eq_states, hnewList,
        rgp_new_nil, List.append_nil]
    exact hperm.nodup_iff.mpr hg.1
  · intro s' hs' rs hrun
    rw [hres] at hs'
    rcases List.mem_append.mp hs' with hs' | hs'
    · obtain ⟨n, hn, hid, hcfg, hst⟩ := loadLoop_new_mem newList c.servers hnew s' hs'
      rcases hst with hnr | ⟨o, ho, hoid, host⟩
      · rw [hrun] at hnr; cases hnr
      · rw [hrun] at host
        rcases hg.2 o ho rs host with hpin | hpool
        · left
          obtain ⟨p, hp, hps⟩ := List.mem_map.mp hn
          have hpid : p.1 = o.id := by
            rw [hoid, ← hps]
            rfl
          rw [hcfg, ← hps]
          show p.2.game_port = some rs.game_port
          rw [hok o ho rs host p hp hpid]
          exact hpin
        · exact Or.inr hpool
    · obtain ⟨x, hx, rfl⟩ := List.mem_map.mp hs'
      obtain ⟨hx1, _⟩ := List.mem_filter.mp hx
      obtain ⟨o₀, ho₀, hid, hcfg, hstd⟩ := forall₂_mem_right
        (loadLoop_old_rel newList c.servers hnew) x hx1
      rcases hstd with hst | hst
      · have : o₀.state = .running rs := by
          rw [← hst]
          exact hrun
        rw [show ({ x with is_old := true } : Server).config = o₀.config from hcfg]
        exact hg.2 o₀ ho₀ rs this
      · rw [show ({ x with is_old := true } : Server).state = x.state from rfl, hst] at hrun
        cases hrun

/-! ### Poll preservation -/

theorem killStep_trans {a b c : Server} (h1 : KillStep a b) (h2 : KillStep b c) :
    KillStep a c := by
  rcases h1 with rfl | rfl
  · exact h2
  · rcases h2 with rfl | h2
    · exact Or.inr rfl
    · rw [h2]
      exact Or.inr rfl

theorem phaseA1_killStep (o : ServerPollOracle) (s : Server) :
    KillStep s (phaseA1 o s).1 := by
  unfold phaseA1
  cases hst : s.state with
  | notRunning => exact Or.inl rfl
  | running rs =>
    by_cases ha : o.alive = false
    · simp only [ha, if_true]
      exact Or.inr rfl
    · simp only [if_neg ha]
      have hk1 : KillStep s (if (s.config.game_config.restart_schedule.isSome &&
          o.cronDue) = true then (s.stop o.cronStop).server else s) := by
        by_cases hc : (s.config.game_config.restart_schedule.isSome && o.cronDue) = true
        · simp only [hc, if_true]
          exact stop_killStep s o.cronStop
        · simp only [hc, Bool.false_eq_true, if_false]
          exact Or.inl rfl
      generalize hgen : (if (s.config.game_config.restart_schedule.isSome &&
          o.cronDue) = true then (s.stop o.cronStop).server else s) = s1
      rw [hgen] at hk1
      cases h1 : s1.state with
      | notRunning => exact hk1
      | running rs1 =>
        by_cases hip : o.hasIp = false
        · simp only [hip, if_true]
          exact hk1
        · simp only [if_neg hip]
          by_cases hpr : o.probeOk = true
          · simp only [hpr, if_true]
            exact hk1
          · simp only [hpr, Bool.false_eq_true, if_false]
            have hk2 := stop_killStep s1 o.probeStop
            cases h2 : (s1.stop o.probeStop).server.state
            · exact killStep_trans hk1 hk2
            · exact killStep_trans hk1 hk2

theorem pollServers1_killStep (o : ℕ → ServerPollOracle) :
    ∀ (l : List Server) (k : ℕ),
    List.Forall₂ KillStep l ((phaseAList o k l).map Prod.fst) := by
  intro l
  induction l with
  | nil => intro k; exact List.Forall₂.nil
  | cons s rest ih =>
    intro k
    exact List.Forall₂.cons (phaseA1_killStep (o k) s) (ih (k + 1))

theorem mem_portsInUse_game (l : List Server) (s : Server) (rs : RunningServer)
    (hs : s ∈ l) (hst : s.state = .running rs) : rs.game_port ∈ (portsInUse l).2 := by
  induction l with
  | nil => cases hs
  | cons x rest ih =>
    rcases List.mem_cons.mp hs with rfl | hs
    · simp [portsInUse, hst]
    · cases hx : x.state with
      | notRunning => simpa [portsInUse, hx] using ih hs
      | running rsx =>
        simp only [portsInUse, hx]
        exact Finset.mem_insert_of_mem (ih hs)

theorem allocOne_some_facts (pin : Option ℕ) (range : PortRange) (used : Finset ℕ)
    (g : ℕ) (h : allocOne pin range used = some g) :
    g ∉ used ∧ (pin = some g ∨ (range.lo ≤ g ∧ g ≤ range.hi)) := by
  cases pin with
  | some p =>
    by_cases hp : p ∈ used
    · simp [allocOne, hp] at h
    · simp only [allocOne, if_neg hp] at h
      obtain rfl := Option.some_inj.mp h
      exact ⟨hp, Or.inl rfl⟩
  | none =>
    obtain ⟨h1, h2, h3, _⟩ := findFree_some range used g h
    exact ⟨h3, Or.inr ⟨h1, h2⟩⟩

theorem lookupIdx_mem (i : ℕ) (l : List (ℕ × RestartServerDetails))
    (d : RestartServerDetails) (h : lookupIdx i l = some d) : (i, d) ∈ l := by
  induction l with
  | nil => cases h
  | cons p rest ih =>
    by_cases hp : p.1 = i
    · simp only [lookupIdx, if_pos hp] at h
      obtain rfl := Option.some_inj.mp h.symm
      rw [← hp]
      exact List.mem_cons_self _ _
    · simp only [lookupIdx, if_neg hp] at h
      exact List.mem_cons_of_mem _ (ih h)

theorem allocLoop_facts (cfg : Config) (servers : List Server) :
    ∀ (queue : List ℕ) (aU gU : Finset ℕ),
    (∀ i d, (i, d) ∈ (allocLoop cfg servers queue aU gU).1 →
      d.game_port ∉ gU ∧ ∃ s, servers[i]? = some s ∧
        (s.config.game_port = some d.game_port ∨
          (cfg.game_ports.lo ≤ d.game_port ∧ d.game_port ≤ cfg.game_ports.hi))) ∧
    ((allocLoop cfg servers queue aU gU).1.map (fun p => p.2.game_port)).Nodup := by
  intro queue
  induction queue with
  | nil =>
    intro aU gU
    exact ⟨fun i d hd => absurd hd (List.not_mem_nil _), List.nodup_nil⟩
  | cons i rest ih =>
    intro aU gU
    cases hgs : servers[i]? with
    | none =>
      rw [show allocLoop cfg servers (i :: rest) aU gU =
        allocLoop cfg servers rest aU gU from by simp [allocLoop, hgs]]
      exact ih aU gU
    | some s =>
      cases hauth : allocOne s.config.auth_port cfg.auth_ports aU with
      | none =>
        rw [show (allocLoop cfg servers (i :: rest) aU gU).1 =
          (allocLoop cfg servers rest aU gU).1 from by simp [allocLoop, hgs, hauth]]
        exact ih aU gU
      | some a =>
        cases hgame : allocOne s.config.game_port cfg.game_ports gU with
        | none =>
          rw [show (allocLoop cfg servers (i :: rest) aU gU).1 =
            (allocLoop cfg servers rest aU gU).1 from by
              simp [allocLoop, hgs, hauth, hgame]]
          exact ih aU gU
        | some g =>
          rw [show (allocLoop cfg servers (i :: rest) aU gU).1 =
            (i, ⟨a, g⟩) :: (allocLoop cfg servers rest (insert a aU)
              (insert g gU)).1 from by simp [allocLoop, hgs, hauth, hgame]]
          obtain ⟨hgnot, hgpin⟩ := allocOne_some_facts s.config.game_port
            cfg.game_ports gU g hgame
          have hih := ih (insert a aU) (insert g gU)
          constructor
          · intro i' d' hd'
            rcases List.mem_cons.mp hd' with heq | hd'
            · have h1 : i' = i := congrArg Prod.fst heq
              have h2 : d' = ⟨a, g⟩ := congrArg Prod.snd heq
              subst h1
              subst h2
              exact ⟨hgnot, s, hgs, hgpin⟩
            · obtain ⟨hnot, hrest⟩ := hih.1 i' d' hd'
              exact ⟨fun hc => hnot (Finset.mem_insert_of_mem hc), hrest⟩
          · rw [List.map_cons]
            refine List.nodup_cons.mpr ⟨?_, hih.2⟩
            intro hc
            obtain ⟨⟨i', d'⟩, hd', heq⟩ := List.mem_map.mp hc
            have := (hih.1 i' d' hd').1
            rw [heq] at this
            exact this (Finset.mem_insert_self _ _)

/-- Two Running servers hold distinct game ports. -/
def PortRel (a b : Server) : Prop :=
  ∀ ra rb : RunningServer, a.state = .running ra → b.state = .running rb →
    ra.game_port ≠ rb.game_port

theorem mem_rgp (l : List Server) (p : ℕ) :
    p ∈ runningGamePorts l ↔ ∃ s ∈ l, ∃ rs : RunningServer,
      s.state = .running rs ∧ rs.game_port = p := by
  unfold runningGamePorts
  rw [List.mem_filterMap]
  constructor
  · rintro ⟨s, hs, hf⟩
    cases hst : s.state with
    | notRunning => rw [hst] at hf; cases hf
    | running rs =>
      rw [hst] at hf
      exact ⟨s, hs, rs, hst, Option.some_inj.mp hf⟩
  · rintro ⟨s, hs, rs, hst, rfl⟩
    refine ⟨s, hs, ?_⟩
    rw [hst]

theorem rgp_nodup_iff_pairwise (l : List Server) :
    (runningGamePorts l).Nodup ↔ l.Pairwise PortRel := by
  induction l with
  | nil => simp [runningGamePorts]
  | cons s rest ih =>
    cases hst : s.state with
    | notRunning =>
      rw [show runningGamePorts (s :: rest) = runningGamePorts rest from by
        simp [runningGamePorts, hst]]
      rw [List.pairwise_cons, ih]
      constructor
      · intro h
        refine ⟨fun y _ ra rb hra _ => ?_, h⟩
        rw [hst] at hra
        cases hra
      · exact fun h => h.2
    | running rs =>
      rw [show runningGamePorts (s :: rest) = rs.game_port :: runningGamePorts rest
        from by simp [runningGamePorts, hst]]
      rw [List.nodup_cons, List.pairwise_cons, ih]
      constructor
      · rintro ⟨hnot, h⟩
        refine ⟨?_, h⟩
        intro y hy ra rb hra hrb
        have hra' : ra = rs := by
          rw [hst] at hra
          cases hra
          rfl
        subst hra'
        intro he
        exact hnot ((mem_rgp rest ra.game_port).mpr ⟨y, hy, rb, hrb, he.symm⟩)
      · rintro ⟨hrel, h⟩
        refine ⟨?_, h⟩
        intro hc
        obtain ⟨y, hy, rb, hyst, hbe⟩ := (mem_rgp rest rs.game_port).mp hc
        exact hrel y hy rs rb hst hyst hbe.symm

theorem phaseCList_mem (o : ℕ → ServerPollOracle)
    (details : List (ℕ × RestartServerDetails)) :
    ∀ (l : List Server) (k : ℕ) (s' : Server),
    s' ∈ phaseCList o details k l → ∃ j s, l.get? j = some s ∧
      ((lookupIdx (k + j) details = none ∧ s' = s) ∨
       (∃ d, lookupIdx (k + j) details = some d ∧
         s' = (s.start d.auth_port d.game_port (o (k + j)).start).2)) := by
  intro l
  induction l with
  | nil => intro k s' h; cases h
  | cons s rest ih =>
    intro k s' h
    rw [phaseCList] at h
    rcases List.mem_cons.mp h with rfl | h
    · refine ⟨0, s, rfl, ?_⟩
      cases hk : lookupIdx k details with
      | none =>
        left
        refine ⟨hk, ?_⟩
        simp only [Nat.add_zero, hk]
      | some d =>
        right
        refine ⟨d, hk, ?_⟩
        simp only [Nat.add_zero, hk]
    · obtain ⟨j, x, hx, hcase⟩ := ih (k + 1) s' h
      refine ⟨j + 1, x, by simpa using hx, ?_⟩
      have harith : k + (j + 1) = k + 1 + j := by omega
      rw [harith]
      exact hcase

theorem start_cases (s : Server) (a g : ℕ) (so : StartOracle) :
    (s.start a g so).2 = s ∨ ∃ cid t,
      (s.start a g so).2 = { s with state := .running ⟨cid, a, g, t⟩ } := by
  obtain ⟨cr, sok, iok, cd, ip, wc⟩ := so
  cases cr <;> cases sok <;> cases iok <;> cases cd <;> cases ip <;> cases wc <;>
    first
      | exact Or.inl rfl
      | exact Or.inr ⟨_, _, rfl⟩

/-- Phase C preserves pairwise distinctness of game ports: an untouched
Running server keeps a port from the ambient in-use set, while every start
uses an allocated port outside that set, and allocated ports are pairwise
distinct. -/
theorem phaseC_pairwise (o : ℕ → ServerPollOracle)
    (details : List (ℕ × RestartServerDetails)) (L : List Server)
    (hdet1 : ∀ i d, (i, d) ∈ details → d.game_port ∉ (portsInUse L).2)
    (hdet2 : (details.map (fun p => p.2.game_port)).Nodup) :
    ∀ (l : List Server) (k : ℕ), (∀ x ∈ l, x ∈ L) → l.Pairwise PortRel →
    (phaseCList o details k l).Pairwise PortRel := by
  intro l
  induction l with
  | nil => intro k _ _; exact List.Pairwise.nil
  | cons s rest ih =>
    intro k hsub hpl
    rw [phaseCList, List.pairwise_cons]
    obtain ⟨hhead_rel, htail⟩ := List.pairwise_cons.mp hpl
    refine ⟨?_, ih (k + 1) (fun x hx => hsub x (List.mem_cons_of_mem _ hx)) htail⟩
    intro y hy ra rb hra hrb he
    have hhead : s.state = .running ra ∨
        ∃ d, (k, d) ∈ details ∧ ra.game_port = d.game_port := by
      cases hk : lookupIdx k details with
      | none =>
        simp only [hk] at hra
        exact Or.inl hra
      | some d =>
        simp only [hk] at hra
        rcases start_cases s d.auth_port d.game_port (o k).start with hcs | ⟨cid, t, hcs⟩
        · rw [hcs] at hra
          exact Or.inl hra
        · rw [hcs] at hra
          have h2 : ServerState.running ⟨cid, d.auth_port, d.game_port, t⟩ =
              .running ra := hra
          have hra' : ra = ⟨cid, d.auth_port, d.game_port, t⟩ := by
            injection h2 with h3
            exact h3.symm
          refine Or.inr ⟨d, lookupIdx_mem k details d hk, ?_⟩
          rw [hra']
    obtain ⟨j, x, hxj, hycase⟩ := phaseCList_mem o details rest (k + 1) y hy
    have hxmem : x ∈ rest := List.get?_mem hxj
    rcases hycase with ⟨hk', heq⟩ | ⟨d', hk', hyeq⟩
    · rw [heq] at hrb
      rcases hhead with hsr | ⟨d, hd, hport⟩
      · exact hhead_rel x hxmem ra rb hsr hrb he
      · have hbmem : rb.game_port ∈ (portsInUse L).2 :=
          mem_portsInUse_game L x rb (hsub x (List.mem_cons_of_mem _ hxmem)) hrb
        have hnot := hdet1 k d hd
        rw [← he, hport] at hbmem
        exact hnot hbmem
    · rcases start_cases x d'.auth_port d'.game_port (o (k + 1 + j)).start with
        hcs | ⟨cid, t, hcs⟩
      · rw [hyeq, hcs] at hrb
        rcases hhead with hsr | ⟨d, hd, hport⟩
        · exact hhead_rel x hxmem ra rb hsr hrb he
        · have hbmem : rb.game_port ∈ (portsInUse L).2 :=
            mem_portsInUse_game L x rb (hsub x (List.mem_cons_of_mem _ hxmem)) hrb
          have hnot := hdet1 k d hd
          rw [← he, hport] at hbmem
          exact hnot hbmem
      · rw [hyeq, hcs] at hrb
        have h2 : ServerState.running ⟨cid, d'.auth_port, d'.game_port, t⟩ =
            .running rb := hrb
        have hrb' : rb = ⟨cid, d'.auth_port, d'.game_port, t⟩ := by
          injection h2 with h3
          exact h3.symm
        have hd'mem := lookupIdx_mem (k + 1 + j) details d' hk'
        rcases hhead with hsr | ⟨d, hd, hport⟩
        · have hamem : ra.game_port ∈ (portsInUse L).2 :=
            mem_portsInUse_game L s ra (hsub s (List.mem_cons_self _ _)) hsr
          have hnot := hdet1 (k + 1 + j) d' hd'mem
          rw [he, hrb'] at hamem
          exact hnot hamem
        · have hports : d.game_port = d'.game_port := by
            rw [← hport, he, hrb']
          have hent : (k, d) = (k + 1 + j, d') :=
            List.inj_on_of_nodup_map hdet2 hd hd'mem (by simpa using hports)
          have hkey : k = k + 1 + j := congrArg Prod.fst hent
          omega

theorem poll_preserves (cfg : Config) (c : ServerCluster) (o : ℕ → ServerPollOracle)
    (hg : GoodCluster cfg c) : GoodCluster cfg (c.poll cfg o).1 := by
  have hg1 : GoodList cfg (pollServers1 c o) :=
    killStep_preserves cfg c.servers _ (pollServers1_killStep o c.servers 0) hg
  by_cases hempty : (pollAlloc cfg c o).1.isEmpty = true
  · rw [show (c.poll cfg o).1 = ⟨pollServers1 c o⟩ from by
      simp [ServerCluster.poll, hempty]]
    exact hg1
  · have hpoll : (c.poll cfg o).1 =
        ⟨phaseCList o (pollAlloc cfg c o).1 0 (pollServers1 c o)⟩ := by
      simp [ServerCluster.poll, hempty]
    rw [hpoll]
    have hfacts := allocLoop_facts cfg (pollServers1 c o) (pollQueue c o)
      (portsInUse (pollServers1 c o)).1 (portsInUse (pollServers1 c o)).2
    constructor
    · rw [show runningGamePorts (ServerCluster.mk (phaseCList o (pollAlloc cfg c o).1 0
        (pollServers1 c o))).servers = runningGamePorts (phaseCList o
        (pollAlloc cfg c o).1 0 (pollServers1 c o)) from rfl]
      rw [rgp_nodup_iff_pairwise]
      refine phaseC_pairwise o (pollAlloc cfg c o).1 (pollServers1 c o)
        (fun i d hd => (hfacts.1 i d hd).1) hfacts.2 (pollServers1 c o) 0
        (fun x hx => hx) ((rgp_nodup_iff_pairwise _).mp hg1.1)
    · intro s' hs' rs hrun
      obtain ⟨j, s, hsj, hcase⟩ := phaseCList_mem o (pollAlloc cfg c o).1
        (pollServers1 c o) 0 s' hs'
      have hsmem : s ∈ pollServers1 c o := List.get?_mem hsj
      rcases hcase with ⟨-, heq⟩ | ⟨d, hk, hyeq⟩
      · rw [heq] at hrun ⊢
        exact hg1.2 s hsmem rs hrun
      · subst hyeq
        rcases start_cases s d.auth_port d.game_port (o (0 + j)).start with
          hcs | ⟨cid, t, hcs⟩
        · rw [hcs] at hrun ⊢
          exact hg1.2 s hsmem rs hrun
        · rw [hcs] at hrun ⊢
          have h2 : ServerState.running ⟨cid, d.auth_port, d.game_port, t⟩ =
              .running rs := hrun
          have hrs : rs = ⟨cid, d.auth_port, d.game_port, t⟩ := by
            injection h2 with h3
            exact h3.symm
          have hmem : (0 + j, d) ∈ (pollAlloc cfg c o).1 := lookupIdx_mem _ _ _ hk
          obtain ⟨-, sx, hsx, hpin⟩ := hfacts.1 (0 + j) d hmem
          have hsx' : (pollServers1 c o).get? (0 + j) = some sx := by
            rw [List.get?_eq_getElem?]
            exact hsx
          have hxs : sx = s := by
            rw [show (0 : ℕ) + j = j from by omega, hsj] at hsx'
            exact (Option.some_inj.mp hsx').symm
          subst hxs
          rcases hpin with hp | hp
          · left
            rw [hrs]
            exact hp
          · right
            rw [hrs]
            exact hp

theorem step_preserves (cfg : Config) (c : ServerCluster) (op : Op)
    (hok : OpOk c op) (hg : GoodCluster cfg c) : GoodCluster cfg (step cfg c op) := by
  cases op with
  | load newPairs => exact load_preserves cfg c newPairs hok hg
  | poll o => exact poll_preserves cfg c o hg
  | stopOld o => exact stop_old_preserves cfg c o hg
  | stopAll o => exact stop_all_preserves cfg c o hg
  | stopServer name o => exact stop_by_name_preserves cfg c name o hg
  | deser records o => cases hok

/-- Claim C1 (amended): starting from the empty cluster, after any sequence
of load_servers / poll / stop_old / stop_all / per-server stop operations in
which the engine never crashes a container and reloads preserve the pinned
game port of currently-Running servers, no two Running servers share a
`game_port` and every Running server's `game_port` is its pinned value or
lies in the configured pool range.  (Deserialization is excluded and pin
changes are constrained: the counterexample shows the claim fails without
those two amendments.) -/
theorem cluster_port_invariant (cfg : Config) (ops : List Op)
    (hok : OkTrace cfg ⟨[]⟩ ops) : GoodCluster cfg (run cfg ⟨[]⟩ ops) := by
  have hgen : ∀ (ops : List Op) (c : ServerCluster), OkTrace cfg c ops →
      GoodCluster cfg c → GoodCluster cfg (run cfg c ops) := by
    intro ops
    induction ops with
    | nil => intro c _ hg; exact hg
    | cons op rest ih =>
      intro c hok hg
      exact ih (step cfg c op) hok.2 (step_preserves cfg c op hok.1 hg)
  refine hgen ops ⟨[]⟩ hok ⟨List.nodup_nil, ?_⟩
  intro s hs
  exact absurd hs (List.not_mem_nil _)

/-- Witness for the amended C1: loading one declared server and polling a
healthy engine yields a cluster satisfying the invariant. -/
theorem cluster_port_invariant_witness :
    GoodCluster testCfg (run testCfg ⟨[]⟩
      [Op.load [("a", testInstance "a" none none)], Op.poll healthyOracle]) := by
  refine cluster_port_invariant testCfg _ ⟨?_, ?_, trivial⟩
  · intro s hs
    exact absurd hs (List.not_mem_nil _)
  · intro i
    rfl

/-- An operation sequence using deserialize to attach two servers to the same
recorded game port, against an engine that reports both containers running. -/
def cexDeserOps : List Op :=
  [Op.load [("a", testInstance "a" none none), ("b", testInstance "b" none none)],
   Op.deser [⟨"a", "c1", 1, 5⟩, ⟨"b", "c2", 2, 5⟩] ⟨fun _ => true, fun _ => some 0⟩]

/-- An operation sequence that starts a server on its pinned out-of-pool port
and then reloads it with the pin removed while it keeps running. -/
def cexPinOps : List Op :=
  [Op.load [("a", testInstance "a" none (some 50000))],
   Op.poll healthyOracle,
   Op.load [("a", testInstance "a" none none)]]

/-- Counterexample to C1 as stated: with deserialize allowed, two Running
servers end up sharing game port 5; and with a reload that drops a pin, a
Running server ends up on port 50000, outside both its (now absent) pin and
the pool 37015..37020 — in both runs the engine never crashes a container. -/
theorem cluster_port_invariant_cex :
    (¬ GoodCluster testCfg (run testCfg ⟨[]⟩ cexDeserOps)) ∧
    (healthyOracle 0).alive = true ∧
    (¬ GoodCluster testCfg (run testCfg ⟨[]⟩ cexPinOps)) := by
  refine ⟨?_, rfl, ?_⟩
  · intro hg
    have hnd := hg.1
    rw [show runningGamePorts (run testCfg ⟨[]⟩ cexDeserOps).servers = [5, 5]
      from rfl] at hnd
    exact (by decide : ¬ ([5, 5] : List ℕ).Nodup) hnd
  · intro hg
    have hs : (run testCfg ⟨[]⟩ cexPinOps).servers =
        [⟨"a", testInstance "a" none none, .running ⟨"c9", 8081, 50000, 9⟩, false⟩] :=
      rfl
    have hmem : (⟨"a", testInstance "a" none none,
        .running ⟨"c9", 8081, 50000, 9⟩, false⟩ : Server) ∈
        (run testCfg ⟨[]⟩ cexPinOps).servers := by
      rw [hs]
      exact List.mem_singleton.mpr rfl
    have hc := hg.2 _ hmem ⟨"c9", 8081, 50000, 9⟩ rfl
    rcases hc with hc | hc
    · cases hc
    · exact absurd hc.2 (by decide)

end R2Wraith
